import Mathlib

/-!
# Verification of the chess engine in `native-lib.cpp`

A shallow embedding of the chess engine found in `src/native-lib.cpp` (the
first revision, namespace `V1`) and of the evaluation pipeline of
`src/v2/native-lib.cpp` (namespace `V2`).  Machine `int`s are modelled as
`Int`; the `Piece board[8][8]` array is modelled as a flat row-major list of
64 pieces with guarded access (`bget`/`bset`): every in-range access matches
the C++ array semantics, and out-of-range accesses (which the C++ never
performs on the executed paths) are total no-ops.  Member functions that
mutate the `ChessGame` object are translated in explicit state-passing style
(`GameState → ... → result × GameState`); member functions that only read
the object are translated as pure functions of the state.  The process-wide
random generator is modelled by explicit streams of draws (`List Int` for
`smallNoise`, `List Bool` for `coinFlip`) threaded through `getBestMove`.
-/

namespace Chess

/-- `enum PieceType { EMPTY, PAWN, KNIGHT, BISHOP, ROOK, QUEEN, KING }`. -/
inductive PieceType where
  | EMPTY | PAWN | KNIGHT | BISHOP | ROOK | QUEEN | KING
deriving DecidableEq, Repr

/-- `enum Color { NONE, WHITE, BLACK }`. -/
inductive Color where
  | NONE | WHITE | BLACK
deriving DecidableEq, Repr

export PieceType (EMPTY PAWN KNIGHT BISHOP ROOK QUEEN KING)
export Color (NONE WHITE BLACK)

/-- `struct Piece { PieceType type; Color color; bool hasMoved; }`. -/
structure Piece where
  type : PieceType
  color : Color
  hasMoved : Bool
deriving DecidableEq, Repr

/-- The `{EMPTY, NONE, false}` aggregate used throughout the source. -/
def emptyPiece : Piece := ⟨EMPTY, NONE, false⟩

/-- `Piece board[8][8]`, row-major. -/
abbrev Board := List Piece

/-- `isValidPosition(row, col)`. -/
def inRange (r c : Int) : Bool := 0 ≤ r && r < 8 && 0 ≤ c && c < 8

/-- Row-major index of square `(r, c)`. -/
def bidx (r c : Int) : Nat := (r * 8 + c).toNat

/-- Read `board[r][c]`; out-of-range reads (never performed in range-checked
C++ code) return the empty square. -/
def bget (b : Board) (r c : Int) : Piece :=
  if inRange r c then b.getD (bidx r c) emptyPiece else emptyPiece

/-- Write `board[r][c] = p`; out-of-range writes are no-ops. -/
def bset (b : Board) (r c : Int) (p : Piece) : Board :=
  if inRange r c then b.set (bidx r c) p else b

end Chess

namespace Chess.V1

/-- `struct Move` of `src/native-lib.cpp`. -/
structure Move where
  fromRow : Int
  fromCol : Int
  toRow : Int
  toCol : Int
  isCapture : Bool
  isCastling : Bool
  isEnPassant : Bool
  isPromotion : Bool
  score : Int
deriving DecidableEq, Repr

/-- The data members of `class ChessGame` of `src/native-lib.cpp`. -/
structure GameState where
  board : Board
  currentPlayer : Color
  whiteKingMoved : Bool
  blackKingMoved : Bool
  whiteRookAMoved : Bool
  whiteRookHMoved : Bool
  blackRookAMoved : Bool
  blackRookHMoved : Bool
  enPassantCol : Int
  enPassantRow : Int
  moveHistory : List Move
deriving DecidableEq, Repr

/-- One back rank of `initializeBoard`. -/
def backRank (c : Color) : List Piece :=
  [⟨ROOK, c, false⟩, ⟨KNIGHT, c, false⟩, ⟨BISHOP, c, false⟩, ⟨QUEEN, c, false⟩,
   ⟨KING, c, false⟩, ⟨BISHOP, c, false⟩, ⟨KNIGHT, c, false⟩, ⟨ROOK, c, false⟩]

/-- One pawn rank of `initializeBoard`. -/
def pawnRank (c : Color) : List Piece := List.replicate 8 ⟨PAWN, c, false⟩

/-- One empty rank of `initializeBoard`. -/
def emptyRank : List Piece := List.replicate 8 emptyPiece

/-- The board set up by `initializeBoard`: row 0 is Black's back rank,
row 7 is White's back rank. -/
def initBoard : Board :=
  backRank BLACK ++ pawnRank BLACK ++ emptyRank ++ emptyRank ++ emptyRank ++
    emptyRank ++ pawnRank WHITE ++ backRank WHITE

/-- The state produced by `initializeBoard` (also the constructor). -/
def initState : GameState :=
  ⟨initBoard, WHITE, false, false, false, false, false, false, -1, -1, []⟩

/-- Pawn push direction: `-1` for white (toward row 0), `1` otherwise. -/
def pawnDir (c : Color) : Int := if c = WHITE then -1 else 1

/-- Pawn double-push start row: 6 for white, 1 otherwise. -/
def pawnStartRow (c : Color) : Int := if c = WHITE then 6 else 1

/-- The capture part of `getPawnMoves` for one column offset `dcol`:
the normal diagonal capture followed by the en-passant capture, in source
push order. -/
def pawnCaptureAt (st : GameState) (row col dcol : Int) : List Move :=
  if inRange (row + pawnDir (bget st.board row col).color) (col + dcol) then
    (if (bget st.board (row + pawnDir (bget st.board row col).color)
          (col + dcol)).type ≠ EMPTY ∧
        (bget st.board (row + pawnDir (bget st.board row col).color)
          (col + dcol)).color ≠ (bget st.board row col).color then
      [⟨row, col, row + pawnDir (bget st.board row col).color, col + dcol, true,
        false, false,
        (row + pawnDir (bget st.board row col).color = 0 ∨
         row + pawnDir (bget st.board row col).color = 7 : Bool), 0⟩]
    else []) ++
    (if col + dcol = st.enPassantCol ∧
        row + pawnDir (bget st.board row col).color = st.enPassantRow then
      [⟨row, col, row + pawnDir (bget st.board row col).color, col + dcol, true,
        false, true, false, 0⟩]
    else [])
  else []

/-- `getPawnMoves`, in source push order: forward push (with the nested double
push), then for `dcol ∈ {-1, 1}` the normal capture followed by the
en-passant capture. -/
def getPawnMoves (st : GameState) (row col : Int) : List Move :=
  (if inRange (row + pawnDir (bget st.board row col).color) col ∧
      (bget st.board (row + pawnDir (bget st.board row col).color) col).type
        = EMPTY then
    ⟨row, col, row + pawnDir (bget st.board row col).color, col, false, false,
      false,
      (row + pawnDir (bget st.board row col).color = 0 ∨
       row + pawnDir (bget st.board row col).color = 7 : Bool), 0⟩ ::
    (if row = pawnStartRow (bget st.board row col).color ∧
        (bget st.board (row + 2 * pawnDir (bget st.board row col).color)
          col).type = EMPTY then
      [⟨row, col, row + 2 * pawnDir (bget st.board row col).color, col, false,
        false, false, false, 0⟩]
    else [])
  else []) ++ pawnCaptureAt st row col (-1) ++ pawnCaptureAt st row col 1

/-- The knight offset table. -/
def knightOffsets : List (Int × Int) :=
  [(-2, -1), (-2, 1), (-1, -2), (-1, 2), (1, -2), (1, 2), (2, -1), (2, 1)]

/-- The shared offset-stepping loop of `getKnightMoves` and the step part of
`getKingMoves` (the two loops are verbatim copies of each other in the
source). -/
def stepTargets (st : GameState) (row col : Int) (offs : List (Int × Int)) :
    List Move :=
  let piece := bget st.board row col
  offs.flatMap fun off =>
    let newRow := row + off.1
    let newCol := col + off.2
    if inRange newRow newCol then
      let target := bget st.board newRow newCol
      if target.type = EMPTY ∨ target.color ≠ piece.color then
        [⟨row, col, newRow, newCol, target.type ≠ EMPTY, false, false, false, 0⟩]
      else []
    else []

/-- `getKnightMoves`. -/
def getKnightMoves (st : GameState) (row col : Int) : List Move :=
  stepTargets st row col knightOffsets

/-- One ray of `getSlidingMoves`: `dist` runs from 1 while `dist < 8`
(7 iterations of fuel), stopping at the board edge, at an own piece
(excluded), or at an enemy piece (included as a capture). -/
def slideFrom (st : GameState) (row col dr dc : Int) (myColor : Color) :
    Int → Nat → List Move
  | _, 0 => []
  | dist, fuel + 1 =>
    let newRow := row + dr * dist
    let newCol := col + dc * dist
    if inRange newRow newCol then
      let target := bget st.board newRow newCol
      if target.type = EMPTY then
        ⟨row, col, newRow, newCol, false, false, false, false, 0⟩ ::
          slideFrom st row col dr dc myColor (dist + 1) fuel
      else if target.color ≠ myColor then
        [⟨row, col, newRow, newCol, true, false, false, false, 0⟩]
      else []
    else []

/-- `getSlidingMoves` over a direction table. -/
def getSlidingMoves (st : GameState) (row col : Int) (dirs : List (Int × Int)) :
    List Move :=
  let piece := bget st.board row col
  dirs.flatMap fun d => slideFrom st row col d.1 d.2 piece.color 1 7

/-- The bishop direction table. -/
def bishopDirs : List (Int × Int) := [(-1, -1), (-1, 1), (1, -1), (1, 1)]

/-- The rook direction table. -/
def rookDirs : List (Int × Int) := [(-1, 0), (1, 0), (0, -1), (0, 1)]

/-- The queen/king direction table. -/
def allDirs : List (Int × Int) :=
  [(-1, -1), (-1, 0), (-1, 1), (0, -1), (0, 1), (1, -1), (1, 0), (1, 1)]

/-- `getBishopMoves`. -/
def getBishopMoves (st : GameState) (row col : Int) : List Move :=
  getSlidingMoves st row col bishopDirs

/-- `getRookMoves`. -/
def getRookMoves (st : GameState) (row col : Int) : List Move :=
  getSlidingMoves st row col rookDirs

/-- `getQueenMoves`. -/
def getQueenMoves (st : GameState) (row col : Int) : List Move :=
  getSlidingMoves st row col allDirs

/-- The castling part of `getKingMoves`, which in this revision is guarded
only by the king/rook `Moved` flags and by emptiness of the intervening
squares (no attack checks). -/
def kingCastles (st : GameState) (row col : Int) : List Move :=
  if (bget st.board row col).color = WHITE ∧ st.whiteKingMoved = false then
    (if st.whiteRookHMoved = false ∧ (bget st.board 7 5).type = EMPTY ∧
        (bget st.board 7 6).type = EMPTY then
      [⟨7, 4, 7, 6, false, true, false, false, 0⟩]
    else []) ++
    (if st.whiteRookAMoved = false ∧ (bget st.board 7 1).type = EMPTY ∧
        (bget st.board 7 2).type = EMPTY ∧ (bget st.board 7 3).type = EMPTY then
      [⟨7, 4, 7, 2, false, true, false, false, 0⟩]
    else [])
  else if (bget st.board row col).color = BLACK ∧ st.blackKingMoved = false then
    (if st.blackRookHMoved = false ∧ (bget st.board 0 5).type = EMPTY ∧
        (bget st.board 0 6).type = EMPTY then
      [⟨0, 4, 0, 6, false, true, false, false, 0⟩]
    else []) ++
    (if st.blackRookAMoved = false ∧ (bget st.board 0 1).type = EMPTY ∧
        (bget st.board 0 2).type = EMPTY ∧ (bget st.board 0 3).type = EMPTY then
      [⟨0, 4, 0, 2, false, true, false, false, 0⟩]
    else [])
  else []

/-- `getKingMoves` proper: the step moves followed by the castling moves. -/
def getKingMoves (st : GameState) (row col : Int) : List Move :=
  stepTargets st row col allDirs ++ kingCastles st row col

/-- `getPseudoLegalMoves`: dispatch on the piece type at the square. -/
def getPseudoLegalMoves (st : GameState) (row col : Int) : List Move :=
  match (bget st.board row col).type with
  | EMPTY => []
  | PAWN => getPawnMoves st row col
  | KNIGHT => getKnightMoves st row col
  | BISHOP => getBishopMoves st row col
  | ROOK => getRookMoves st row col
  | QUEEN => getQueenMoves st row col
  | KING => getKingMoves st row col

/-- The row-major list of the 64 squares, as scanned by the source's nested
`for (r) for (c)` loops. -/
def squaresList : List (Int × Int) :=
  (List.range 8).flatMap fun r => (List.range 8).map fun c => ((r : Int), (c : Int))

/-- `isSquareAttacked(row, col, attackerColor)`: scan all squares; pawns are
checked by their diagonal attack pattern directly, all other pieces by
their pseudo-legal moves with castling moves excluded. -/
def isSquareAttacked (st : GameState) (row col : Int) (attackerColor : Color) : Bool :=
  squaresList.any fun rc =>
    let piece := bget st.board rc.1 rc.2
    if piece.type ≠ EMPTY ∧ piece.color = attackerColor then
      if piece.type = PAWN then
        let direction : Int := if attackerColor = WHITE then -1 else 1
        [(-1 : Int), 1].any fun dc => rc.1 + direction = row ∧ rc.2 + dc = col
      else
        (getPseudoLegalMoves st rc.1 rc.2).any fun m =>
          m.toRow = row ∧ m.toCol = col ∧ m.isCastling = false
    else false

/-- `isInCheck`'s king scan: the first square in row-major order holding a
king of the given color. -/
def findKing (st : GameState) (color : Color) : Option (Int × Int) :=
  squaresList.find? fun rc =>
    (bget st.board rc.1 rc.2).type = KING ∧ (bget st.board rc.1 rc.2).color = color

/-- The opposing color, as computed by `(color == WHITE) ? BLACK : WHITE`. -/
def oppColor (c : Color) : Color := if c = WHITE then BLACK else WHITE

/-- `isInCheck(color)`: find the king (defensively `false` when absent) and
query the attack oracle with the opposing color. -/
def isInCheck (st : GameState) (color : Color) : Bool :=
  match findKing st color with
  | none => false
  | some rc => isSquareAttacked st rc.1 rc.2 (oppColor color)

/-- The en-passant capture row `(color == WHITE) ? toRow + 1 : toRow - 1`. -/
def epCaptureRow (movingColor : Color) (toRow : Int) : Int :=
  if movingColor = WHITE then toRow + 1 else toRow - 1

/-- The castling rook's origin column (`toCol == 6` is kingside). -/
def rookFromCol (toCol : Int) : Int := if toCol = 6 then 7 else 0

/-- The castling rook's destination column (`toCol == 6` is kingside). -/
def rookToCol (toCol : Int) : Int := if toCol = 6 then 5 else 3

/-- The board after `isLegalMove`'s temporary application of `move`: relocate
the moving piece, clear the en-passant victim, relocate the castling rook. -/
def trialBoard (st : GameState) (move : Move) : Board :=
  let movingPiece := bget st.board move.fromRow move.fromCol
  let b2 := bset (bset st.board move.toRow move.toCol movingPiece)
    move.fromRow move.fromCol emptyPiece
  let b3 := if move.isEnPassant then
      bset b2 (epCaptureRow movingPiece.color move.toRow) move.toCol emptyPiece
    else b2
  if move.isCastling then
    bset (bset b3 move.fromRow (rookToCol move.toCol)
        (bget b3 move.fromRow (rookFromCol move.toCol)))
      move.fromRow (rookFromCol move.toCol) emptyPiece
  else b3

/-- `isLegalMove(move)`: snapshot, apply the move temporarily (`trialBoard`),
test whether the mover's own king is attacked, then restore every snapshotted
field.  Returns the verdict together with the state left behind. -/
def isLegalMove (st : GameState) (move : Move) : Bool × GameState :=
  let tempPiece := bget st.board move.toRow move.toCol
  let movingPiece := bget st.board move.fromRow move.fromCol
  let capRow := epCaptureRow movingPiece.color move.toRow
  let b2 := bset (bset st.board move.toRow move.toCol movingPiece)
    move.fromRow move.fromCol emptyPiece
  let capturedPawn := if move.isEnPassant then bget b2 capRow move.toCol else emptyPiece
  let savedRook := if move.isCastling then
      bget (if move.isEnPassant then bset b2 capRow move.toCol emptyPiece else b2)
        move.fromRow (rookToCol move.toCol)
    else emptyPiece
  let b5 := trialBoard st move
  let legal := !(isInCheck { st with board := b5 } st.currentPlayer)
  let r2 := bset (bset b5 move.fromRow move.fromCol movingPiece)
    move.toRow move.toCol tempPiece
  let r3 := if move.isEnPassant then bset r2 capRow move.toCol capturedPawn else r2
  let r4 := if move.isCastling then
      bset (bset r3 move.fromRow (rookFromCol move.toCol)
          (bget r3 move.fromRow (rookToCol move.toCol)))
        move.fromRow (rookToCol move.toCol) savedRook
    else r3
  (legal, { st with board := r4 })

/-- The `for (move : pseudoMoves) if (isLegalMove(move)) moves.push_back(move)`
loop, with the state threaded through the successive `isLegalMove` calls. -/
def filterLegal (st : GameState) : List Move → List Move × GameState
  | [] => ([], st)
  | m :: rest =>
    let p := isLegalMove st m
    let q := filterLegal p.2 rest
    (if p.1 then m :: q.1 else q.1, q.2)

/-- `getLegalMoves(row, col)`: empty for out-of-range squares, empty squares
and opponent pieces, else the legality-filtered pseudo-legal moves. -/
def getLegalMoves (st : GameState) (row col : Int) : List Move × GameState :=
  if inRange row col then
    if (bget st.board row col).type = EMPTY ∨
        (bget st.board row col).color ≠ st.currentPlayer then ([], st)
    else filterLegal st (getPseudoLegalMoves st row col)
  else ([], st)

/-- Board stage 1 of `executeMoveInternal(move, promotionPiece)` (the stages
`execB1`-`execB6` spell out its successive `board` mutations): clear the
en-passant victim. -/
def execB1 (st : GameState) (move : Move) : Board :=
  if move.isEnPassant then
    bset st.board
      (epCaptureRow (bget st.board move.fromRow move.fromCol).color move.toRow)
      move.toCol emptyPiece
  else st.board

/-- Stage 2: relocate the castling rook. -/
def execB2 (st : GameState) (move : Move) : Board :=
  if move.isCastling then
    if move.toCol = 6 then
      bset (bset (execB1 st move) move.fromRow 5 (bget (execB1 st move) move.fromRow 7))
        move.fromRow 7 emptyPiece
    else
      bset (bset (execB1 st move) move.fromRow 3 (bget (execB1 st move) move.fromRow 0))
        move.fromRow 0 emptyPiece
  else execB1 st move

/-- Stage 3: place the moving piece on the destination. -/
def execB3 (st : GameState) (move : Move) : Board :=
  bset (execB2 st move) move.toRow move.toCol (bget st.board move.fromRow move.fromCol)

/-- Stage 4: clear the origin square. -/
def execB4 (st : GameState) (move : Move) : Board :=
  bset (execB3 st move) move.fromRow move.fromCol emptyPiece

/-- Stage 5: set the destination piece's hasMoved flag. -/
def execB5 (st : GameState) (move : Move) : Board :=
  bset (execB4 st move) move.toRow move.toCol
    { bget (execB4 st move) move.toRow move.toCol with hasMoved := true }

/-- Stage 6: apply the promotion piece type. -/
def execB6 (st : GameState) (move : Move) (promotionPiece : PieceType) : Board :=
  if move.isPromotion then
    bset (execB5 st move) move.toRow move.toCol
      { bget (execB5 st move) move.toRow move.toCol with type := promotionPiece }
  else execB5 st move

/-- The executed double-pawn-push test of `executeMoveInternal`. -/
def execDoublePush (st : GameState) (move : Move) : Prop :=
  (bget st.board move.fromRow move.fromCol).type = PAWN ∧
  (move.fromRow - move.toRow).natAbs = 2

instance (st : GameState) (move : Move) : Decidable (execDoublePush st move) := by
  unfold execDoublePush
  infer_instance

/-- `executeMoveInternal(move, promotionPiece)`: apply the board stages, then
recompute the en-passant target (this revision resets only `enPassantCol`
when the move is not a double pawn push, leaving `enPassantRow` stale),
update the castling-rights flags, and flip the player. -/
def executeMoveInternal (st : GameState) (move : Move) (promotionPiece : PieceType) :
    GameState :=
  { st with
    board := execB6 st move promotionPiece
    enPassantCol := if execDoublePush st move then move.fromCol else -1
    enPassantRow :=
      if execDoublePush st move then (move.fromRow + move.toRow) / 2
      else st.enPassantRow
    whiteKingMoved :=
      if (bget st.board move.fromRow move.fromCol).type = KING ∧
          (bget st.board move.fromRow move.fromCol).color = WHITE then true
      else st.whiteKingMoved
    blackKingMoved :=
      if (bget st.board move.fromRow move.fromCol).type = KING ∧
          (bget st.board move.fromRow move.fromCol).color ≠ WHITE then true
      else st.blackKingMoved
    whiteRookAMoved :=
      if (bget st.board move.fromRow move.fromCol).type = ROOK ∧
          (bget st.board move.fromRow move.fromCol).color = WHITE ∧
          move.fromCol = 0 then true
      else st.whiteRookAMoved
    whiteRookHMoved :=
      if (bget st.board move.fromRow move.fromCol).type = ROOK ∧
          (bget st.board move.fromRow move.fromCol).color = WHITE ∧
          move.fromCol = 7 then true
      else st.whiteRookHMoved
    blackRookAMoved :=
      if (bget st.board move.fromRow move.fromCol).type = ROOK ∧
          (bget st.board move.fromRow move.fromCol).color ≠ WHITE ∧
          move.fromCol = 0 then true
      else st.blackRookAMoved
    blackRookHMoved :=
      if (bget st.board move.fromRow move.fromCol).type = ROOK ∧
          (bget st.board move.fromRow move.fromCol).color ≠ WHITE ∧
          move.fromCol = 7 then true
      else st.blackRookHMoved
    currentPlayer := oppColor st.currentPlayer }

/-- The `for (move : legalMoves) if (move.toRow == toRow && move.toCol == toCol)`
search: the first legal move matching the requested destination. -/
def findMatch (toRow toCol : Int) : List Move → Option Move
  | [] => none
  | m :: rest =>
    if m.toRow = toRow ∧ m.toCol = toCol then some m else findMatch toRow toCol rest

/-- `makeMove(fromRow, fromCol, toRow, toCol, promotionPiece)`: regenerate the
legal moves from the origin square, execute the first one matching the
destination, report success; failure leaves the state as the legal-move
regeneration left it. -/
def makeMove (st : GameState) (fromRow fromCol toRow toCol : Int)
    (promotionPiece : PieceType) : Bool × GameState :=
  match findMatch toRow toCol (getLegalMoves st fromRow fromCol).1 with
  | some m => (true, executeMoveInternal (getLegalMoves st fromRow fromCol).2 m promotionPiece)
  | none => (false, (getLegalMoves st fromRow fromCol).2)

/-- `pieceValues[7] = {0, 100, 320, 330, 500, 900, 20000}` indexed by type. -/
def pieceValue : PieceType → Int
  | EMPTY => 0
  | PAWN => 100
  | KNIGHT => 320
  | BISHOP => 330
  | ROOK => 500
  | QUEEN => 900
  | KING => 20000

/-- Look up an 8×8 evaluation table at `(r, c)`. -/
def tableGet (t : List (List Int)) (r c : Int) : Int :=
  (t.getD (r.toNat) []).getD (c.toNat) 0

/-- `pawnTable` of `evaluateBoard`. -/
def pawnTable : List (List Int) :=
  [[0, 0, 0, 0, 0, 0, 0, 0],
   [50, 50, 50, 50, 50, 50, 50, 50],
   [10, 10, 20, 30, 30, 20, 10, 10],
   [5, 5, 10, 25, 25, 10, 5, 5],
   [0, 0, 0, 20, 20, 0, 0, 0],
   [5, -5, -10, 0, 0, -10, -5, 5],
   [5, 10, 10, -20, -20, 10, 10, 5],
   [0, 0, 0, 0, 0, 0, 0, 0]]

/-- `knightTable` of `evaluateBoard`. -/
def knightTable : List (List Int) :=
  [[-50, -40, -30, -30, -30, -30, -40, -50],
   [-40, -20, 0, 0, 0, 0, -20, -40],
   [-30, 0, 10, 15, 15, 10, 0, -30],
   [-30, 5, 15, 20, 20, 15, 5, -30],
   [-30, 0, 15, 20, 20, 15, 0, -30],
   [-30, 5, 10, 15, 15, 10, 5, -30],
   [-40, -20, 0, 5, 5, 0, -20, -40],
   [-50, -40, -30, -30, -30, -30, -40, -50]]

/-- `evaluateBoard()`: material plus pawn/knight piece-square bonuses plus a
centre-control bonus, summed positively for White and negatively for Black.
This revision reads only the board, so the translation is a pure function. -/
def evaluateBoard (st : GameState) : Int :=
  squaresList.foldl
    (fun score rc =>
      let piece := bget st.board rc.1 rc.2
      if piece.type ≠ EMPTY then
        let value := pieceValue piece.type
        let value := if piece.type = PAWN then
            value + (if piece.color = WHITE then tableGet pawnTable rc.1 rc.2
              else tableGet pawnTable (7 - rc.1) rc.2)
          else value
        let value := if piece.type = KNIGHT then
            value + (if piece.color = WHITE then tableGet knightTable rc.1 rc.2
              else tableGet knightTable (7 - rc.1) rc.2)
          else value
        let value := if 3 ≤ rc.1 ∧ rc.1 ≤ 4 ∧ 3 ≤ rc.2 ∧ rc.2 ≤ 4 then value + 10
          else value
        if piece.color = WHITE then score + value else score - value
      else score)
    0

/-- The `for (r) for (c) if (board[r][c].color == currentPlayer)` collection
loop shared by `getBestMove` and `minimax`, with the state threaded through
the `getLegalMoves` calls. -/
def collectGo (st : GameState) : List (Int × Int) → List Move × GameState
  | [] => ([], st)
  | rc :: rest =>
    if (bget st.board rc.1 rc.2).color = st.currentPlayer then
      let p := getLegalMoves st rc.1 rc.2
      let q := collectGo p.2 rest
      (p.1 ++ q.1, q.2)
    else collectGo st rest

/-- All current-player legal moves, gathered square by square. -/
def collectAllMoves (st : GameState) : List Move × GameState :=
  collectGo st squaresList

/-- Pop the next `smallNoise(rng)` draw (0 when the stream is exhausted). -/
def popNoise : List Int → Int × List Int
  | [] => (0, [])
  | n :: rest => (n, rest)

/-- Pop the next `coinFlip(rng)` draw (`false` when the stream is exhausted). -/
def popCoin : List Bool → Bool × List Bool
  | [] => (false, [])
  | b :: rest => (b, rest)

/-- The body of one iteration of `minimax`'s move loop: save the affected
fields, `executeMoveInternal`, recurse (the recursion is passed in as `mm`),
then restore.  The board restore is `board[from] = board[to]; board[to] =
temp` as in the source, and the en-passant victim is restored from the piece
saved before execution. -/
def minimaxStep (mm : GameState → Int × GameState) (st : GameState) (move : Move) :
    Int × GameState :=
  let temp := bget st.board move.toRow move.toCol
  let savedEPC := st.enPassantCol
  let savedEPR := st.enPassantRow
  let prevPlayer := st.currentPlayer
  let sWK := st.whiteKingMoved
  let sBK := st.blackKingMoved
  let sWRA := st.whiteRookAMoved
  let sWRH := st.whiteRookHMoved
  let sBRA := st.blackRookAMoved
  let sBRH := st.blackRookHMoved
  let capRow : Int := if prevPlayer = WHITE then move.toRow + 1 else move.toRow - 1
  let tempEnPassant := if move.isEnPassant then bget st.board capRow move.toCol
    else emptyPiece
  let stE := executeMoveInternal st move QUEEN
  let p := mm stE
  let stM := p.2
  let b1 := bset stM.board move.fromRow move.fromCol
    (bget stM.board move.toRow move.toCol)
  let b2 := bset b1 move.toRow move.toCol temp
  let b3 := if move.isEnPassant then bset b2 capRow move.toCol tempEnPassant else b2
  (p.1,
   { stM with
     board := b3
     currentPlayer := prevPlayer
     enPassantCol := savedEPC
     enPassantRow := savedEPR
     whiteKingMoved := sWK
     blackKingMoved := sBK
     whiteRookAMoved := sWRA
     whiteRookHMoved := sWRH
     blackRookAMoved := sBRA
     blackRookHMoved := sBRH })

/-- The maximizing loop of `minimax`, with alpha update and beta cutoff. -/
def loopMax (mm : GameState → Int → Int → Bool → Int × GameState)
    (st : GameState) (alpha beta maxEval : Int) : List Move → Int × GameState
  | [] => (maxEval, st)
  | move :: rest =>
    let p := minimaxStep (fun s => mm s alpha beta false) st move
    let maxEval' := max maxEval p.1
    let alpha' := max alpha p.1
    if beta ≤ alpha' then (maxEval', p.2)
    else loopMax mm p.2 alpha' beta maxEval' rest

/-- The minimizing loop of `minimax`, with beta update and alpha cutoff. -/
def loopMin (mm : GameState → Int → Int → Bool → Int × GameState)
    (st : GameState) (alpha beta minEval : Int) : List Move → Int × GameState
  | [] => (minEval, st)
  | move :: rest =>
    let p := minimaxStep (fun s => mm s alpha beta true) st move
    let minEval' := min minEval p.1
    let beta' := min beta p.1
    if beta' ≤ alpha then (minEval', p.2)
    else loopMin mm p.2 alpha beta' minEval' rest

/-- `minimax(depth, alpha, beta, maximizing)`.  At depth 0 the static
evaluation; with no legal moves a mate/stalemate score; otherwise the
alpha-beta loop over all moves.  The C++ `int depth` is modelled as `Nat`
(the engine only calls it with nonnegative depths). -/
def minimax (st : GameState) : Nat → Int → Int → Bool → Int × GameState
  | 0, _, _, _ => (evaluateBoard st, st)
  | depth + 1, alpha, beta, maximizing =>
    let p := collectAllMoves st
    if p.1.isEmpty then
      (if isInCheck p.2 p.2.currentPlayer then
        (if maximizing then -999999 else 999999)
      else 0, p.2)
    else if maximizing then
      loopMax (fun s a b m => minimax s depth a b m) p.2 alpha beta (-999999) p.1
    else
      loopMin (fun s a b m => minimax s depth a b m) p.2 alpha beta 999999 p.1

/-- One iteration of `getBestMove`'s move-ordering loop: base score from
capture / centre control / a `smallNoise` draw, then a trial execution to
test whether the move gives check — restored by hand without restoring the
castling-rights flags, and rebuilding the en-passant victim as a
never-moved pawn — then pawn-advance and promotion bonuses. -/
def scoreOne (st : GameState) (noise : List Int) (move : Move) :
    Move × GameState × List Int :=
  let captured := bget st.board move.toRow move.toCol
  let s1 : Int := if captured.type ≠ EMPTY then 100 else 0
  let s2 := if 3 ≤ move.toRow ∧ move.toRow ≤ 4 ∧ 3 ≤ move.toCol ∧ move.toCol ≤ 4 then
      s1 + 10
    else s1
  let n := popNoise noise
  let s3 := s2 + n.1
  let tempPiece := bget st.board move.toRow move.toCol
  let movingPiece := bget st.board move.fromRow move.fromCol
  let prevPlayer := st.currentPlayer
  let savedEPC := st.enPassantCol
  let savedEPR := st.enPassantRow
  let stE := executeMoveInternal st move QUEEN
  let givesCheck := isInCheck stE (oppColor prevPlayer)
  let b1 := bset stE.board move.fromRow move.fromCol movingPiece
  let b2 := bset b1 move.toRow move.toCol tempPiece
  let capRow : Int := if prevPlayer = WHITE then move.toRow + 1 else move.toRow - 1
  let b3 := if move.isEnPassant then
      bset b2 capRow move.toCol ⟨PAWN, oppColor prevPlayer, false⟩
    else b2
  let stR : GameState :=
    { stE with
      currentPlayer := prevPlayer
      board := b3
      enPassantCol := savedEPC
      enPassantRow := savedEPR }
  let s4 := if givesCheck then s3 + 20 else s3
  let s5 := if (bget stR.board move.fromRow move.fromCol).type = PAWN then
      s4 + (if stR.currentPlayer = WHITE then 7 - move.toRow else move.toRow) / 2
    else s4
  let s6 := if move.isPromotion then s5 + 80 else s5
  ({ move with score := s6 }, stR, n.2)

/-- `getBestMove`'s move-ordering loop over all root moves. -/
def scoreMoves (st : GameState) (noise : List Int) :
    List Move → List Move × GameState × List Int
  | [] => ([], st, noise)
  | move :: rest =>
    let p := scoreOne st noise move
    let q := scoreMoves p.2.1 p.2.2 rest
    (p.1 :: q.1, q.2)

/-- Insert a move into a list sorted by descending score (a deterministic
model of `std::sort` with the comparator `a.score > b.score`; `std::sort`
leaves the relative order of tied scores unspecified). -/
def insertDesc (m : Move) : List Move → List Move
  | [] => [m]
  | x :: xs => if m.score > x.score then m :: x :: xs else x :: insertDesc m xs

/-- Sort moves by descending score (model of the `std::sort` call). -/
def sortDesc : List Move → List Move
  | [] => []
  | x :: xs => insertDesc x (sortDesc xs)

/-- One iteration of `getBestMove`'s evaluation loop: the same
save/execute/recurse/restore cycle as `minimax`'s loop (`minimaxStep`),
then the tie-breaking comparison, which draws a `coinFlip` only when the
scores are exactly equal. -/
def selectGo (depth : Nat) (st : GameState) (coins : List Bool)
    (bestMove : Move) (bestScore : Int) : List Move → Move × GameState × List Bool
  | [] => (bestMove, st, coins)
  | move :: rest =>
    let prevPlayer := st.currentPlayer
    let p := minimaxStep
      (fun s => minimax s depth (-999999) 999999 (s.currentPlayer = BLACK)) st move
    let score := p.1
    let better : Bool × List Bool :=
      if prevPlayer = WHITE then
        if score > bestScore then (true, coins)
        else if score = bestScore then popCoin coins
        else (false, coins)
      else if prevPlayer = BLACK then
        if score < bestScore then (true, coins)
        else if score = bestScore then popCoin coins
        else (false, coins)
      else (false, coins)
    if better.1 then selectGo depth p.2 better.2 move score rest
    else selectGo depth p.2 better.2 bestMove bestScore rest

/-- The `{-1, -1, -1, -1, false, false, false, false, 0}` no-move sentinel. -/
def sentinelMove : Move := ⟨-1, -1, -1, -1, false, false, false, false, 0⟩

/-- `getBestMove(depth)`: gather all root legal moves (sentinel when none),
score and sort them, then run the evaluation loop.  `noise` and `coins` are
the streams of `smallNoise(rng)` and `coinFlip(rng)` draws.  The source
passes `depth - 1` to `minimax`; `depth` is modelled as `Nat` (the engine
only calls `getBestMove` with positive depths). -/
def getBestMove (st : GameState) (depth : Nat) (noise : List Int)
    (coins : List Bool) : Move × GameState :=
  let p := collectAllMoves st
  if p.1.isEmpty then (sentinelMove, p.2)
  else
    let q := scoreMoves p.2 noise p.1
    let sorted := sortDesc q.1
    let st2 := q.2.1
    let bestScore0 : Int := if st2.currentPlayer = WHITE then -999999 else 999999
    let r := selectGo (depth - 1) st2 coins (sorted.headD sentinelMove) bestScore0 sorted
    (r.1, r.2.1)

/-- `isGameOver()`: no piece of the side to move has a legal move.  The scan
threads the state through `getLegalMoves` like the source loop. -/
def isGameOverGo (st : GameState) : List (Int × Int) → Bool × GameState
  | [] => (true, st)
  | rc :: rest =>
    if (bget st.board rc.1 rc.2).color = st.currentPlayer then
      let p := getLegalMoves st rc.1 rc.2
      if p.1.isEmpty then isGameOverGo p.2 rest else (false, p.2)
    else isGameOverGo st rest

/-- `isGameOver()`. -/
def isGameOver (st : GameState) : Bool × GameState :=
  isGameOverGo st squaresList


/-- The shape facts about a move that the board-restore algebra needs; every
move produced by `getPseudoLegalMoves` satisfies them. -/
def MoveOK (st : GameState) (m : Move) : Prop :=
  ¬(m.fromRow = m.toRow ∧ m.fromCol = m.toCol) ∧
  (m.isEnPassant = true →
    epCaptureRow (bget st.board m.fromRow m.fromCol).color m.toRow = m.fromRow ∧
    m.toCol ≠ m.fromCol ∧ m.toRow ≠ m.fromRow) ∧
  (m.isCastling = true →
    m.fromCol = 4 ∧ m.toRow = m.fromRow ∧ (m.toCol = 6 ∨ m.toCol = 2) ∧
    m.isEnPassant = false ∧ inRange m.fromRow 4 = true)

/-- The full set of facts established for every pseudo-legal move. -/
def PseudoFacts (st : GameState) (r c : Int) (m : Move) : Prop :=
  MoveOK st m ∧
  (m.isCastling = false → m.fromRow = r ∧ m.fromCol = c) ∧
  (m.isCastling = true → (bget st.board r c).type = KING) ∧
  inRange m.fromRow m.fromCol = true ∧
  inRange m.toRow m.toCol = true ∧
  (m.isEnPassant = true → m.isPromotion = false ∧ m.toRow = st.enPassantRow) ∧
  ((bget st.board r c).type = PAWN → m.isEnPassant = false →
    m.isPromotion = decide (m.toRow = 0 ∨ m.toRow = 7))


/-- The state reached through the exported boundary: the constructor's initial
state, followed by successful `makeMove` calls.  The boundary's `makeMove`
always passes `QUEEN` as the promotion piece (`native-lib.cpp:802-806`). -/
inductive Reachable : GameState → Prop where
  | init : Reachable initState
  | step {st : GameState} {fr fc tr tc : Int} {st' : GameState} :
      Reachable st → makeMove st fr fc tr tc QUEEN = (true, st') → Reachable st'

/-- The invariant carried by every reachable state. -/
def ReachInv (st : GameState) : Prop :=
  st.board.length = 64 ∧
  (st.currentPlayer = WHITE ∨ st.currentPlayer = BLACK) ∧
  st.enPassantRow ≠ 0 ∧ st.enPassantRow ≠ 7

/-- The starting state with the black queen (square `(0,3)`) removed. -/
def initStateNoQueen : GameState :=
  { initState with board := bset initState.board 0 3 emptyPiece }


/-- The white pawn push a2-a3, the first pseudo-legal move of square `(6,0)`. -/
def mA3 : Move := ⟨6, 0, 5, 0, false, false, false, false, 0⟩

/-- The white king-side castling move as emitted by `getKingMoves`. -/
def castleKW : Move := ⟨7, 4, 7, 6, false, true, false, false, 0⟩

/-- A concrete game (1. e4 d5 2. Bc4 b6 3. Bxd5 Ba6 4. Nf3 h6) leaving white
free to castle king-side while the transit square `(7,5)` is attacked by the
bishop on `(2,0)`. -/
def g1 : GameState := (makeMove initState 6 4 4 4 QUEEN).2
def g2 : GameState := (makeMove g1 1 3 3 3 QUEEN).2
def g3 : GameState := (makeMove g2 7 5 4 2 QUEEN).2
def g4 : GameState := (makeMove g3 1 1 2 1 QUEEN).2
def g5 : GameState := (makeMove g4 4 2 3 3 QUEEN).2
def g6 : GameState := (makeMove g5 0 2 2 0 QUEEN).2
def g7 : GameState := (makeMove g6 7 6 5 5 QUEEN).2
def g8 : GameState := (makeMove g7 1 7 2 7 QUEEN).2

/-- The state after 1. e4 Nf6: the knight reply is not a double pawn push,
yet only `enPassantCol` is reset. -/
def st2 : GameState := (makeMove g1 0 6 2 5 QUEEN).2

/-- A concrete game driving the h-pawn to promotion on `(0,7)`:
1. h4 g5 2. hxg5 h6 3. gxh6 Nf6 4. h7 Rg8 5. h8 (boundary promotion). -/
def p1 : GameState := (makeMove initState 6 7 4 7 QUEEN).2
def p2 : GameState := (makeMove p1 1 6 3 6 QUEEN).2
def p3 : GameState := (makeMove p2 4 7 3 6 QUEEN).2
def p4 : GameState := (makeMove p3 1 7 2 7 QUEEN).2
def p5 : GameState := (makeMove p4 3 6 2 7 QUEEN).2
def p6 : GameState := (makeMove p5 0 6 2 5 QUEEN).2
def p7 : GameState := (makeMove p6 2 7 1 7 QUEEN).2
def p8 : GameState := (makeMove p7 0 7 0 6 QUEEN).2
def p9 : GameState := (makeMove p8 1 7 0 7 QUEEN).2

end Chess.V1

namespace Chess.V2

/-!
The second revision, `src/v2/native-lib.cpp`.  Its `getKingMoves` guards the
castling moves with `isInCheck` and `isSquareAttacked`, while its
`isSquareAttacked` still expands a scanned king's full pseudo-legal move list
(`getPseudoLegalMoves` → `getKingMoves`).  The C++ call graph therefore
contains the unguarded cycle `isSquareAttacked → getKingMoves → isInCheck →
isSquareAttacked`, which never terminates on boards where the castling
guards' oracle calls are reached (for example whenever both kings carry
unset `KingMoved` flags and are reached by the attack scan).  The embedding
makes this recursion well-defined by indexing it with an explicit recursion
budget `fuel`, decremented at each `getKingMoves` expansion: a result `none`
at every `fuel` is exactly a non-terminating (stack-overflowing) C++ call.
-/

/-- `struct Move` of `src/v2/native-lib.cpp`, which adds the `capturedPiece`
member used for move ordering. -/
structure Move where
  fromRow : Int
  fromCol : Int
  toRow : Int
  toCol : Int
  isCapture : Bool
  isCastling : Bool
  isEnPassant : Bool
  isPromotion : Bool
  score : Int
  capturedPiece : Piece
deriving DecidableEq, Repr

/-- The data members of v2's `class ChessGame`, which adds the half-move
clock and the full-move number. -/
structure GameState where
  board : Board
  currentPlayer : Color
  whiteKingMoved : Bool
  blackKingMoved : Bool
  whiteRookAMoved : Bool
  whiteRookHMoved : Bool
  blackRookAMoved : Bool
  blackRookHMoved : Bool
  enPassantCol : Int
  enPassantRow : Int
  moveHistory : List Move
  halfMoveClock : Int
  fullMoveNumber : Int
deriving DecidableEq, Repr

/-- The state produced by v2's `initializeBoard` (same board layout as v1). -/
def initState : GameState :=
  ⟨V1.initBoard, WHITE, false, false, false, false, false, false, -1, -1, [], 0, 1⟩

/-- v2 `getPawnMoves` (now recording `capturedPiece`). -/
def getPawnMoves (st : GameState) (row col : Int) : List Move :=
  let piece := bget st.board row col
  let direction : Int := if piece.color = WHITE then -1 else 1
  let startRow : Int := if piece.color = WHITE then 6 else 1
  let forward : List Move :=
    if inRange (row + direction) col ∧ (bget st.board (row + direction) col).type = EMPTY then
      ⟨row, col, row + direction, col, false, false, false,
        (row + direction = 0 ∨ row + direction = 7 : Bool), 0, emptyPiece⟩ ::
      (if row = startRow ∧ (bget st.board (row + 2 * direction) col).type = EMPTY then
        [⟨row, col, row + 2 * direction, col, false, false, false, false, 0, emptyPiece⟩]
      else [])
    else []
  let captureAt : Int → List Move := fun dcol =>
    let newRow := row + direction
    let newCol := col + dcol
    if inRange newRow newCol then
      let target := bget st.board newRow newCol
      (if target.type ≠ EMPTY ∧ target.color ≠ piece.color then
        [⟨row, col, newRow, newCol, true, false, false,
          (newRow = 0 ∨ newRow = 7 : Bool), 0, target⟩]
      else []) ++
      (if newCol = st.enPassantCol ∧ newRow = st.enPassantRow then
        [⟨row, col, newRow, newCol, true, false, true, false, 0,
          ⟨PAWN, (if piece.color = WHITE then BLACK else WHITE), true⟩⟩]
      else [])
    else []
  forward ++ captureAt (-1) ++ captureAt 1

/-- v2 `getKnightMoves`. -/
def getKnightMoves (st : GameState) (row col : Int) : List Move :=
  let piece := bget st.board row col
  V1.knightOffsets.flatMap fun off =>
    let newRow := row + off.1
    let newCol := col + off.2
    if inRange newRow newCol then
      let target := bget st.board newRow newCol
      if target.type = EMPTY ∨ target.color ≠ piece.color then
        [⟨row, col, newRow, newCol, target.type ≠ EMPTY, false, false, false, 0, target⟩]
      else []
    else []

/-- One ray of v2's `getSlidingMoves`. -/
def slideFrom (st : GameState) (row col dr dc : Int) (myColor : Color) :
    Int → Nat → List Move
  | _, 0 => []
  | dist, fuel + 1 =>
    let newRow := row + dr * dist
    let newCol := col + dc * dist
    if inRange newRow newCol then
      let target := bget st.board newRow newCol
      if target.type = EMPTY then
        ⟨row, col, newRow, newCol, false, false, false, false, 0, emptyPiece⟩ ::
          slideFrom st row col dr dc myColor (dist + 1) fuel
      else if target.color ≠ myColor then
        [⟨row, col, newRow, newCol, true, false, false, false, 0, target⟩]
      else []
    else []

/-- v2 `getSlidingMoves`. -/
def getSlidingMoves (st : GameState) (row col : Int) (dirs : List (Int × Int)) :
    List Move :=
  let piece := bget st.board row col
  dirs.flatMap fun d => slideFrom st row col d.1 d.2 piece.color 1 7

/-- The eight one-step king moves of v2 `getKingMoves` (the part before the
castling clause, which involves no oracle calls). -/
def kingStepMoves (st : GameState) (row col : Int) : List Move :=
  let piece := bget st.board row col
  V1.allDirs.flatMap fun d =>
    let newRow := row + d.1
    let newCol := col + d.2
    if inRange newRow newCol then
      let target := bget st.board newRow newCol
      if target.type = EMPTY ∨ target.color ≠ piece.color then
        [⟨row, col, newRow, newCol, target.type ≠ EMPTY, false, false, false, 0, target⟩]
      else []
    else []

/-- v2 `getPseudoLegalMoves` for the piece types whose generators make no
oracle calls (every type except the king). -/
def getPseudoLegalMovesNonKing (st : GameState) (row col : Int) : List Move :=
  match (bget st.board row col).type with
  | PAWN => getPawnMoves st row col
  | KNIGHT => getKnightMoves st row col
  | BISHOP => getSlidingMoves st row col V1.bishopDirs
  | ROOK => getSlidingMoves st row col V1.rookDirs
  | QUEEN => getSlidingMoves st row col V1.allDirs
  | _ => []

/-- One iteration of the `for (r) for (c)` scan of v2 `isSquareAttacked`,
parameterised by the pseudo-legal generator `g` used for non-pawn pieces
(`none` = the generator itself does not terminate): `some true` when the
square's piece attacks the target, `some false` when it does not. -/
def scanItem (g : Int → Int → Option (List Move)) (st : GameState)
    (row col : Int) (attacker : Color) (rc : Int × Int) : Option Bool :=
  let piece := bget st.board rc.1 rc.2
  if piece.type ≠ EMPTY ∧ piece.color = attacker then
    if piece.type = PAWN then
      let direction : Int := if attacker = WHITE then -1 else 1
      some ([(-1 : Int), 1].any fun dc => rc.1 + direction = row ∧ rc.2 + dc = col)
    else
      match g rc.1 rc.2 with
      | none => none
      | some moves =>
        some (moves.any fun m => m.toRow = row ∧ m.toCol = col ∧ m.isCastling = false)
  else some false

/-- The scan of v2 `isSquareAttacked` over a square list, with the early
`return true`. -/
def scanW (g : Int → Int → Option (List Move)) (st : GameState)
    (row col : Int) (attacker : Color) : List (Int × Int) → Option Bool
  | [] => some false
  | rc :: rest =>
    match scanItem g st row col attacker rc with
    | none => none
    | some true => some true
    | some false => scanW g st row col attacker rest

/-- v2 `isSquareAttacked`, parameterised by the pseudo-legal generator. -/
def isaW (g : Int → Int → Option (List Move)) (st : GameState)
    (row col : Int) (attacker : Color) : Option Bool :=
  scanW g st row col attacker V1.squaresList

/-- v2 `isInCheck`, parameterised by the pseudo-legal generator. -/
def iicW (g : Int → Int → Option (List Move)) (st : GameState) (color : Color) :
    Option Bool :=
  match V1.squaresList.find? fun rc =>
      (bget st.board rc.1 rc.2).type = KING ∧ (bget st.board rc.1 rc.2).color = color with
  | none => some false
  | some rc => isaW g st rc.1 rc.2 (V1.oppColor color)

/-- v2 `getPseudoLegalMoves`, parameterised by the king generator `gkm`
(the only generator that consults the oracle). -/
def gplmW (gkm : Int → Int → Option (List Move)) (st : GameState)
    (row col : Int) : Option (List Move) :=
  match (bget st.board row col).type with
  | KING => gkm row col
  | _ => some (getPseudoLegalMovesNonKing st row col)

/-- v2 `getKingMoves` under a recursion budget: the step moves, then the
castling clause, whose short-circuited guards call `isInCheck` and
`isSquareAttacked` — the calls that close the C++ recursion cycle
`isSquareAttacked → getPseudoLegalMoves → getKingMoves → isInCheck →
isSquareAttacked`.  Each `getKingMoves` expansion costs one unit of `fuel`;
a result of `none` means the budget was exhausted, so a `none` at every
`fuel` is exactly a C++ call that recurses without bound. -/
def getKingMovesF (st : GameState) : Nat → Int → Int → Option (List Move)
  | 0, _, _ => none
  | fuel + 1, row, col =>
    let g := gplmW (getKingMovesF st fuel) st
    let piece := bget st.board row col
    let steps := kingStepMoves st row col
    let castles : Option (List Move) :=
      if piece.color = WHITE ∧ st.whiteKingMoved = false then
        match iicW g st WHITE with
        | none => none
        | some true => some []
        | some false =>
          let kside : Option (List Move) :=
            if st.whiteRookHMoved = false ∧ (bget st.board 7 5).type = EMPTY ∧
                (bget st.board 7 6).type = EMPTY then
              match isaW g st 7 5 BLACK with
              | none => none
              | some true => some []
              | some false =>
                match isaW g st 7 6 BLACK with
                | none => none
                | some true => some []
                | some false => some [⟨7, 4, 7, 6, false, true, false, false, 0, emptyPiece⟩]
            else some []
          match kside with
          | none => none
          | some ks =>
            if st.whiteRookAMoved = false ∧ (bget st.board 7 1).type = EMPTY ∧
                (bget st.board 7 2).type = EMPTY ∧ (bget st.board 7 3).type = EMPTY then
              match isaW g st 7 3 BLACK with
              | none => none
              | some true => some ks
              | some false =>
                match isaW g st 7 2 BLACK with
                | none => none
                | some true => some ks
                | some false =>
                  some (ks ++ [⟨7, 4, 7, 2, false, true, false, false, 0, emptyPiece⟩])
            else some ks
      else if piece.color = BLACK ∧ st.blackKingMoved = false then
        match iicW g st BLACK with
        | none => none
        | some true => some []
        | some false =>
          let kside : Option (List Move) :=
            if st.blackRookHMoved = false ∧ (bget st.board 0 5).type = EMPTY ∧
                (bget st.board 0 6).type = EMPTY then
              match isaW g st 0 5 WHITE with
              | none => none
              | some true => some []
              | some false =>
                match isaW g st 0 6 WHITE with
                | none => none
                | some true => some []
                | some false => some [⟨0, 4, 0, 6, false, true, false, false, 0, emptyPiece⟩]
            else some []
          match kside with
          | none => none
          | some ks =>
            if st.blackRookAMoved = false ∧ (bget st.board 0 1).type = EMPTY ∧
                (bget st.board 0 2).type = EMPTY ∧ (bget st.board 0 3).type = EMPTY then
              match isaW g st 0 3 WHITE with
              | none => none
              | some true => some ks
              | some false =>
                match isaW g st 0 2 WHITE with
                | none => none
                | some true => some ks
                | some false =>
                  some (ks ++ [⟨0, 4, 0, 2, false, true, false, false, 0, emptyPiece⟩])
            else some ks
      else some []
    match castles with
    | none => none
    | some cs => some (steps ++ cs)

/-- v2 `getPseudoLegalMoves` under a recursion budget. -/
def getPseudoLegalMovesF (st : GameState) (row col : Int) (fuel : Nat) :
    Option (List Move) :=
  gplmW (getKingMovesF st fuel) st row col

/-- v2 `isSquareAttacked` under a recursion budget. -/
def isSquareAttackedF (st : GameState) (row col : Int) (attacker : Color)
    (fuel : Nat) : Option Bool :=
  isaW (gplmW (getKingMovesF st fuel) st) st row col attacker

/-- v2 `isInCheck` under a recursion budget. -/
def isInCheckF (st : GameState) (color : Color) (fuel : Nat) : Option Bool :=
  iicW (gplmW (getKingMovesF st fuel) st) st color

/-- The state on which v2 `isLegalMove` queries the oracle: the trial board
with the moving piece relocated, the en-passant victim cleared and the
castling rook moved (identical mutations to v1's `isLegalMove`). -/
def trialStateV2 (st : GameState) (move : Move) : GameState :=
  let movingPiece := bget st.board move.fromRow move.fromCol
  let capRow := V1.epCaptureRow movingPiece.color move.toRow
  let b2 := bset (bset st.board move.toRow move.toCol movingPiece)
    move.fromRow move.fromCol emptyPiece
  let b3 := if move.isEnPassant then bset b2 capRow move.toCol emptyPiece else b2
  let b5 := if move.isCastling then
      bset (bset b3 move.fromRow (V1.rookToCol move.toCol)
          (bget b3 move.fromRow (V1.rookFromCol move.toCol)))
        move.fromRow (V1.rookFromCol move.toCol) emptyPiece
    else b3
  { st with board := b5 }

/-- v2 `isLegalMove` under a recursion budget (the board mutations are as in
v1; only the nested `isInCheck`, evaluated on `trialStateV2`, can exhaust
the budget; the snapshot-and-restore is replayed when it returns). -/
def isLegalMoveF (st : GameState) (move : Move) (fuel : Nat) :
    Option (Bool × GameState) :=
  match isInCheckF (trialStateV2 st move) st.currentPlayer fuel with
  | none => none
  | some chk =>
    let tempPiece := bget st.board move.toRow move.toCol
    let movingPiece := bget st.board move.fromRow move.fromCol
    let capRow := V1.epCaptureRow movingPiece.color move.toRow
    let b2 := bset (bset st.board move.toRow move.toCol movingPiece)
      move.fromRow move.fromCol emptyPiece
    let capturedPawn := if move.isEnPassant then bget b2 capRow move.toCol else emptyPiece
    let b3 := if move.isEnPassant then bset b2 capRow move.toCol emptyPiece else b2
    let savedRook := if move.isCastling then
        bget b3 move.fromRow (V1.rookToCol move.toCol)
      else emptyPiece
    let b5 := (trialStateV2 st move).board
    let r2 := bset (bset b5 move.fromRow move.fromCol movingPiece)
      move.toRow move.toCol tempPiece
    let r3 := if move.isEnPassant then bset r2 capRow move.toCol capturedPawn else r2
    let r4 := if move.isCastling then
        bset (bset r3 move.fromRow (V1.rookFromCol move.toCol)
            (bget r3 move.fromRow (V1.rookToCol move.toCol)))
          move.fromRow (V1.rookToCol move.toCol) savedRook
      else r3
    some (!chk, { st with board := r4 })

/-- v2's legality filter loop under a recursion budget. -/
def filterLegalF (fuel : Nat) (st : GameState) :
    List Move → Option (List Move × GameState)
  | [] => some ([], st)
  | m :: rest =>
    match isLegalMoveF st m fuel with
    | none => none
    | some p =>
      match filterLegalF fuel p.2 rest with
      | none => none
      | some q => some (if p.1 then m :: q.1 else q.1, q.2)

/-- v2 `getLegalMoves` under a recursion budget. -/
def getLegalMovesF (st : GameState) (row col : Int) (fuel : Nat) :
    Option (List Move × GameState) :=
  if inRange row col then
    let piece := bget st.board row col
    if piece.type = EMPTY ∨ piece.color ≠ st.currentPlayer then some ([], st)
    else
      match getPseudoLegalMovesF st row col fuel with
      | none => none
      | some pms => filterLegalF fuel st pms
  else some ([], st)

/-- v2 `pawnTableWhite`. -/
def pawnTableWhite : List (List Int) :=
  [[0, 0, 0, 0, 0, 0, 0, 0],
   [50, 50, 50, 50, 50, 50, 50, 50],
   [10, 10, 20, 30, 30, 20, 10, 10],
   [5, 5, 10, 27, 27, 10, 5, 5],
   [0, 0, 0, 25, 25, 0, 0, 0],
   [5, -5, -10, 0, 0, -10, -5, 5],
   [5, 10, 10, -25, -25, 10, 10, 5],
   [0, 0, 0, 0, 0, 0, 0, 0]]

/-- v2 `knightTable`. -/
def knightTable : List (List Int) :=
  [[-50, -40, -30, -30, -30, -30, -40, -50],
   [-40, -20, 0, 5, 5, 0, -20, -40],
   [-30, 5, 10, 15, 15, 10, 5, -30],
   [-30, 0, 15, 20, 20, 15, 0, -30],
   [-30, 5, 15, 20, 20, 15, 5, -30],
   [-30, 0, 10, 15, 15, 10, 0, -30],
   [-40, -20, 0, 0, 0, 0, -20, -40],
   [-50, -40, -20, -30, -30, -20, -40, -50]]

/-- v2 `bishopTable`. -/
def bishopTable : List (List Int) :=
  [[-20, -10, -10, -10, -10, -10, -10, -20],
   [-10, 5, 0, 0, 0, 0, 5, -10],
   [-10, 10, 10, 10, 10, 10, 10, -10],
   [-10, 0, 10, 10, 10, 10, 0, -10],
   [-10, 5, 5, 10, 10, 5, 5, -10],
   [-10, 0, 5, 10, 10, 5, 0, -10],
   [-10, 0, 0, 0, 0, 0, 0, -10],
   [-20, -10, -40, -10, -10, -40, -10, -20]]

/-- v2 `rookTable`. -/
def rookTable : List (List Int) :=
  [[0, 0, 0, 5, 5, 0, 0, 0],
   [-5, 0, 0, 0, 0, 0, 0, -5],
   [-5, 0, 0, 0, 0, 0, 0, -5],
   [-5, 0, 0, 0, 0, 0, 0, -5],
   [-5, 0, 0, 0, 0, 0, 0, -5],
   [-5, 0, 0, 0, 0, 0, 0, -5],
   [5, 10, 10, 10, 10, 10, 10, 5],
   [0, 0, 0, 0, 0, 0, 0, 0]]

/-- v2 `queenTable`. -/
def queenTable : List (List Int) :=
  [[-20, -10, -10, -5, -5, -10, -10, -20],
   [-10, 0, 5, 0, 0, 0, 0, -10],
   [-10, 5, 5, 5, 5, 5, 0, -10],
   [0, 0, 5, 5, 5, 5, 0, -5],
   [-5, 0, 5, 5, 5, 5, 0, -5],
   [-10, 0, 5, 5, 5, 5, 0, -10],
   [-10, 0, 0, 0, 0, 0, 0, -10],
   [-20, -10, -10, -5, -5, -10, -10, -20]]

/-- v2 `kingTableMiddle`. -/
def kingTableMiddle : List (List Int) :=
  [[-30, -40, -40, -50, -50, -40, -40, -30],
   [-30, -40, -40, -50, -50, -40, -40, -30],
   [-30, -40, -40, -50, -50, -40, -40, -30],
   [-30, -40, -40, -50, -50, -40, -40, -30],
   [-20, -30, -30, -40, -40, -30, -30, -20],
   [-10, -20, -20, -20, -20, -20, -20, -10],
   [20, 20, 0, 0, 0, 0, 20, 20],
   [20, 30, 10, 0, 0, 10, 30, 20]]

/-- v2 `kingTableEnd`. -/
def kingTableEnd : List (List Int) :=
  [[-50, -30, -30, -30, -30, -30, -30, -50],
   [-30, -30, 0, 0, 0, 0, -30, -30],
   [-30, -10, 20, 30, 30, 20, -10, -30],
   [-30, -10, 30, 40, 40, 30, -10, -30],
   [-30, -10, 30, 40, 40, 30, -10, -30],
   [-30, -10, 20, 30, 30, 20, -10, -30],
   [-30, -20, -10, 0, 0, -10, -20, -30],
   [-50, -40, -30, -20, -20, -30, -40, -50]]

/-- The positional table value for one piece in v2 `evaluateBoard`
(Black rows mirrored). -/
def posValue (isEndgame : Bool) (piece : Piece) (r c : Int) : Int :=
  let mirror : Int := if piece.color = WHITE then r else 7 - r
  match piece.type with
  | PAWN => V1.tableGet pawnTableWhite mirror c
  | KNIGHT => V1.tableGet knightTable mirror c
  | BISHOP => V1.tableGet bishopTable mirror c
  | ROOK => V1.tableGet rookTable mirror c
  | QUEEN => V1.tableGet queenTable mirror c
  | KING =>
    if isEndgame then V1.tableGet kingTableEnd mirror c
    else V1.tableGet kingTableMiddle mirror c
  | EMPTY => 0

/-- The per-square loop of v2 `evaluateBoard`: material + piece-square value,
then the mobility bonus, computed by temporarily setting `currentPlayer` to
the piece's color around a `getLegalMoves` call. -/
def evalGoF (isEndgame : Bool) (fuel : Nat) (score : Int) (st : GameState) :
    List (Int × Int) → Option (Int × GameState)
  | [] => some (score, st)
  | rc :: rest =>
    let piece := bget st.board rc.1 rc.2
    if piece.type ≠ EMPTY then
      let value := V1.pieceValue piece.type + posValue isEndgame piece rc.1 rc.2
      let savedPlayer := st.currentPlayer
      match getLegalMovesF { st with currentPlayer := piece.color } rc.1 rc.2 fuel with
      | none => none
      | some p =>
        let st' := { p.2 with currentPlayer := savedPlayer }
        let value := value + (p.1.length : Int) * 2
        evalGoF isEndgame fuel
          (if piece.color = WHITE then score + value else score - value) st' rest
    else evalGoF isEndgame fuel score st rest

/-- v2 `evaluateBoard()` under a recursion budget: game-phase detection by
non-king material count, the per-square loop, and the check bonus outside
the endgame. -/
def evaluateBoardF (st : GameState) (fuel : Nat) : Option Int :=
  let materialCount := V1.squaresList.countP fun rc =>
    (bget st.board rc.1 rc.2).type ≠ EMPTY ∧ (bget st.board rc.1 rc.2).type ≠ KING
  let isEndgame := decide (materialCount < 12)
  match evalGoF isEndgame fuel 0 st V1.squaresList with
  | none => none
  | some p =>
    if isEndgame = false then
      match isInCheckF p.2 WHITE fuel with
      | none => none
      | some cw =>
        match isInCheckF p.2 BLACK fuel with
        | none => none
        | some cb =>
          some ((if cw then p.1 - 50 else p.1) + (if cb then 50 else 0))
    else some p.1

/-- `scanItem` with the pure non-king generator (what one scan step computes
whenever it does not touch a king). -/
def scanItemP (st : GameState) (row col : Int) (attacker : Color) (rc : Int × Int) :
    Option Bool :=
  scanItem (fun r c => some (getPseudoLegalMovesNonKing st r c)) st row col attacker rc

/-- The initial state with Black to move, as produced inside v2
`evaluateBoard`'s mobility computation for a black piece. -/
def stB : GameState := { initState with currentPlayer := BLACK }

/-- The first pseudo-legal move of the knight on b8 (`(0,1) → (2,0)`). -/
def m1 : Move := ⟨0, 1, 2, 0, false, false, false, false, 0, emptyPiece⟩

/-- The state on which v2's first `isInCheck` runs when `evaluateBoard` is
applied to the initial position: the trial application of `m1`. -/
def T1 : GameState := trialStateV2 stB m1

/-- The initial v2 state with Black's queen removed (square `(0,3)` cleared). -/
def initNoQueen : GameState :=
  { initState with board := bset initState.board 0 3 emptyPiece }

/-- `initNoQueen` with Black to move (mobility computation). -/
def stQB : GameState := { initNoQueen with currentPlayer := BLACK }

/-- The trial state of `m1` on the queen-removed board. -/
def T1q : GameState := trialStateV2 stQB m1


/-- The white pawn push a2-a3 as a v2 move. -/
def mP : Move := ⟨6, 0, 5, 0, false, false, false, false, 0, emptyPiece⟩

/-- The trial state `isLegalMove` builds for `mP` on the initial state. -/
def TInit : GameState := trialStateV2 initState mP

/-- The legal-move collection phase of v2 `getBestMove` (the nested
`for (r) for (c) if (board[r][c].color == currentPlayer)` loops), fuelled
like the rest of the v2 model and threading the state through the
`getLegalMoves` calls. -/
def rootMovesF (fuel : Nat) (st : GameState) :
    List (Int × Int) → Option (List Move × GameState)
  | [] => some ([], st)
  | rc :: rest =>
    if (bget st.board rc.1 rc.2).color = st.currentPlayer then
      match getLegalMovesF st rc.1 rc.2 fuel with
      | none => none
      | some p =>
        match rootMovesF fuel p.2 rest with
        | none => none
        | some q => some (p.1 ++ q.1, q.2)
    else rootMovesF fuel st rest

end Chess.V2

/-!
## Theorems

Everything below is proof: first the general lemma library about the
embedded definitions, then, at the end, one theorem per specification
claim (with witnesses and counterexamples where required).
-/

namespace Chess.V2

set_option maxRecDepth 100000

theorem scanW_cons_none {g st row col a q l} (h : scanItem g st row col a q = none) :
    scanW g st row col a (q :: l) = none := by
  simp [scanW, h]

theorem scanW_cons_false {g st row col a q l} (h : scanItem g st row col a q = some false) :
    scanW g st row col a (q :: l) = scanW g st row col a l := by
  simp [scanW, h]

theorem scanItem_nonKing {gkm st row col a rc}
    (h : ¬((bget st.board rc.1 rc.2).type = KING ∧ (bget st.board rc.1 rc.2).color = a)) :
    scanItem (gplmW gkm st) st row col a rc = scanItemP st row col a rc := by
  by_cases hc : (bget st.board rc.1 rc.2).color = a
  · have hty' : (bget st.board rc.1 rc.2).type ≠ KING := fun hk => h ⟨hk, hc⟩
    unfold scanItemP
    unfold scanItem gplmW
    rcases hty : (bget st.board rc.1 rc.2).type <;> simp [hty] at hty' ⊢
  · unfold scanItemP
    unfold scanItem gplmW
    simp [hc]

theorem scanW_skip_prefix {gkm st row col a} {l : List (Int × Int)} :
    ∀ {pre : List (Int × Int)},
    (∀ q ∈ pre, ¬((bget st.board q.1 q.2).type = KING ∧ (bget st.board q.1 q.2).color = a) ∧
      scanItemP st row col a q = some false) →
    scanW (gplmW gkm st) st row col a (pre ++ l) = scanW (gplmW gkm st) st row col a l
  | [], _ => rfl
  | q :: pre, h => by
    have h1 := h q (by simp)
    rw [List.cons_append, scanW_cons_false ((scanItem_nonKing h1.1).trans h1.2)]
    exact scanW_skip_prefix fun p hp => h p (by simp [hp])

theorem kingItem_none_black {st : GameState} {f : Nat} {row col : Int} {rc : Int × Int}
    (hk : (bget st.board rc.1 rc.2).type = KING)
    (hc : (bget st.board rc.1 rc.2).color = BLACK)
    (hflag : st.blackKingMoved = false)
    (hF : isInCheckF st BLACK f = none) :
    scanItem (gplmW (getKingMovesF st (f + 1)) st) st row col BLACK rc = none := by
  unfold scanItem gplmW
  rw [hk]
  simp only [hk, hc]
  simp only [getKingMovesF]
  unfold isInCheckF at hF
  simp [hk, hc, hflag, hF]

theorem kingItem_none_white {st : GameState} {f : Nat} {row col : Int} {rc : Int × Int}
    (hk : (bget st.board rc.1 rc.2).type = KING)
    (hc : (bget st.board rc.1 rc.2).color = WHITE)
    (hflag : st.whiteKingMoved = false)
    (hF : isInCheckF st WHITE f = none) :
    scanItem (gplmW (getKingMovesF st (f + 1)) st) st row col WHITE rc = none := by
  unfold scanItem gplmW
  rw [hk]
  simp only [hk, hc]
  simp only [getKingMovesF]
  unfold isInCheckF at hF
  simp [hk, hc, hflag, hF]

theorem kingItem_none_fuel0 {st : GameState} {row col : Int} {a : Color} {rc : Int × Int}
    (hk : (bget st.board rc.1 rc.2).type = KING)
    (hc : (bget st.board rc.1 rc.2).color = a) :
    scanItem (gplmW (getKingMovesF st 0) st) st row col a rc = none := by
  unfold scanItem gplmW
  rw [hk]
  simp [hk, hc, getKingMovesF]

/-- On any board whose `isInCheck(WHITE)` scan meets an unmoved black king at
`(0,4)` after a clean prefix, and whose `isInCheck(BLACK)` scan meets an
unmoved white king at `(7,4)` likewise, the v2 oracle exhausts every
recursion budget: the C++ `isInCheck` / `isSquareAttacked` /
`getKingMoves` cycle never terminates. -/
theorem oracle_diverges (st : GameState)
    (hfW : (V1.squaresList.find? fun rc => (bget st.board rc.1 rc.2).type = KING ∧
      (bget st.board rc.1 rc.2).color = WHITE) = some (7, 4))
    (hfB : (V1.squaresList.find? fun rc => (bget st.board rc.1 rc.2).type = KING ∧
      (bget st.board rc.1 rc.2).color = BLACK) = some (0, 4))
    (hkW : (bget st.board 7 4).type = KING ∧ (bget st.board 7 4).color = WHITE)
    (hkB : (bget st.board 0 4).type = KING ∧ (bget st.board 0 4).color = BLACK)
    (hflagW : st.whiteKingMoved = false)
    (hflagB : st.blackKingMoved = false)
    (hskipW : ∀ q ∈ V1.squaresList.take 4,
      ¬((bget st.board q.1 q.2).type = KING ∧ (bget st.board q.1 q.2).color = BLACK) ∧
      scanItemP st 7 4 BLACK q = some false)
    (hskipB : ∀ q ∈ V1.squaresList.take 60,
      ¬((bget st.board q.1 q.2).type = KING ∧ (bget st.board q.1 q.2).color = WHITE) ∧
      scanItemP st 0 4 WHITE q = some false) :
    ∀ f, isInCheckF st WHITE f = none ∧ isInCheckF st BLACK f = none := by
  have hsplitW : V1.squaresList = V1.squaresList.take 4 ++ (0, 4) :: V1.squaresList.drop 5 := by
    decide
  have hsplitB : V1.squaresList = V1.squaresList.take 60 ++ (7, 4) :: V1.squaresList.drop 61 := by
    decide
  have hoW : V1.oppColor WHITE = BLACK := rfl
  have hoB : V1.oppColor BLACK = WHITE := rfl
  intro f
  induction f with
  | zero =>
    constructor
    · unfold isInCheckF iicW
      simp only [hfW]
      unfold isaW
      rw [hoW, hsplitW, scanW_skip_prefix hskipW]
      exact scanW_cons_none (kingItem_none_fuel0 hkB.1 hkB.2)
    · unfold isInCheckF iicW
      simp only [hfB]
      unfold isaW
      rw [hoB, hsplitB, scanW_skip_prefix hskipB]
      exact scanW_cons_none (kingItem_none_fuel0 hkW.1 hkW.2)
  | succ f ih =>
    constructor
    · unfold isInCheckF iicW
      simp only [hfW]
      unfold isaW
      rw [hoW, hsplitW, scanW_skip_prefix hskipW]
      exact scanW_cons_none (kingItem_none_black hkB.1 hkB.2 hflagB ih.2)
    · unfold isInCheckF iicW
      simp only [hfB]
      unfold isaW
      rw [hoB, hsplitB, scanW_skip_prefix hskipB]
      exact scanW_cons_none (kingItem_none_white hkW.1 hkW.2 hflagW ih.1)

theorem isLegalMoveF_none {st m fuel}
    (h : isInCheckF (trialStateV2 st m) st.currentPlayer fuel = none) :
    isLegalMoveF st m fuel = none := by
  unfold isLegalMoveF
  rw [h]

theorem filterLegalF_cons_none {fuel st m l} (h : isLegalMoveF st m fuel = none) :
    filterLegalF fuel st (m :: l) = none := by
  simp [filterLegalF, h]

theorem gplmW_nonKing {gkm st row col}
    (h : (bget st.board row col).type ≠ KING) :
    gplmW gkm st row col = some (getPseudoLegalMovesNonKing st row col) := by
  unfold gplmW
  rcases hty : (bget st.board row col).type <;> simp [hty] at h ⊢

theorem getLegalMovesF_eq_filter {st : GameState} {row col : Int} {fuel ms}
    (hin : inRange row col = true)
    (hty : (bget st.board row col).type ≠ EMPTY)
    (hcol : (bget st.board row col).color = st.currentPlayer)
    (hps : getPseudoLegalMovesF st row col fuel = some ms) :
    getLegalMovesF st row col fuel = filterLegalF fuel st ms := by
  unfold getLegalMovesF
  rw [hin]
  simp [hty, hcol, hps]

theorem evalGoF_cons_none {ie fuel st l} {rc : Int × Int}
    (hne : (bget st.board rc.1 rc.2).type ≠ EMPTY)
    (h : getLegalMovesF { st with currentPlayer := (bget st.board rc.1 rc.2).color }
      rc.1 rc.2 fuel = none) :
    ∀ sc, evalGoF ie fuel sc st (rc :: l) = none := by
  intro sc
  unfold evalGoF
  simp [hne, h]

theorem evalGoF_cons_step_none {ie fuel st l p} {rc : Int × Int}
    (hne : (bget st.board rc.1 rc.2).type ≠ EMPTY)
    (h : getLegalMovesF { st with currentPlayer := (bget st.board rc.1 rc.2).color }
      rc.1 rc.2 fuel = some p)
    (htail : ∀ sc, evalGoF ie fuel sc { p.2 with currentPlayer := st.currentPlayer } l = none) :
    ∀ sc, evalGoF ie fuel sc st (rc :: l) = none := by
  intro sc
  unfold evalGoF
  simp [hne, h, htail]

theorem evaluateBoardF_none {st fuel}
    (h : ∀ ie, evalGoF ie fuel 0 st V1.squaresList = none) :
    evaluateBoardF st fuel = none := by
  unfold evaluateBoardF
  simp only [h]

theorem T1_diverges : ∀ f, isInCheckF T1 WHITE f = none ∧ isInCheckF T1 BLACK f = none :=
  oracle_diverges T1 (by decide) (by decide) (by decide) (by decide)
    (by decide) (by decide) (by decide) (by decide)

theorem glm01_none (fuel : Nat) : getLegalMovesF stB 0 1 fuel = none := by
  have hps : getPseudoLegalMovesF stB 0 1 fuel =
      some [m1, ⟨0, 1, 2, 2, false, false, false, false, 0, emptyPiece⟩] := by
    unfold getPseudoLegalMovesF
    rw [gplmW_nonKing (by decide)]
    rw [show getPseudoLegalMovesNonKing stB 0 1 =
      [m1, ⟨0, 1, 2, 2, false, false, false, false, 0, emptyPiece⟩] from by decide]
  rw [getLegalMovesF_eq_filter (by decide) (by decide) (by decide) hps]
  apply filterLegalF_cons_none
  apply isLegalMoveF_none
  rw [show stB.currentPlayer = BLACK from rfl]
  rw [show trialStateV2 stB m1 = T1 from rfl]
  exact (T1_diverges fuel).2

theorem glm00 (fuel : Nat) : getLegalMovesF stB 0 0 fuel = some ([], stB) := by
  have hps : getPseudoLegalMovesF stB 0 0 fuel = some [] := by
    unfold getPseudoLegalMovesF
    rw [gplmW_nonKing (by decide)]
    rw [show getPseudoLegalMovesNonKing stB 0 0 = [] from by decide]
  rw [getLegalMovesF_eq_filter (by decide) (by decide) (by decide) hps]
  rfl

/-- v2's `evaluateBoard` never returns on the freshly initialised state: its
first mobility query reaches the infinitely mutually recursive attack
oracle, at every recursion budget. -/
theorem evaluateBoardF_init_none (fuel : Nat) : evaluateBoardF initState fuel = none := by
  apply evaluateBoardF_none
  intro ie
  rw [show V1.squaresList =
    ((0 : Int), (0 : Int)) :: ((0 : Int), (1 : Int)) :: V1.squaresList.drop 2 from by decide]
  have e0 : (bget initState.board (0 : Int) (0 : Int)).color = BLACK := by decide
  apply evalGoF_cons_step_none (p := ([], stB)) (by decide)
  · rw [e0]
    exact glm00 fuel
  · intro sc
    have est : ({ stB with currentPlayer := initState.currentPlayer } : GameState) =
        initState := by decide
    rw [show (([], stB) : List Move × GameState).2 = stB from rfl, est]
    have e1 : (bget initState.board (0 : Int) (1 : Int)).color = BLACK := by decide
    apply evalGoF_cons_none (by decide)
    rw [e1]
    exact glm01_none fuel

theorem T1q_diverges : ∀ f, isInCheckF T1q WHITE f = none ∧ isInCheckF T1q BLACK f = none :=
  oracle_diverges T1q (by decide) (by decide) (by decide) (by decide)
    (by decide) (by decide) (by decide) (by decide)

theorem glm01q_none (fuel : Nat) : getLegalMovesF stQB 0 1 fuel = none := by
  have hps : getPseudoLegalMovesF stQB 0 1 fuel =
      some [m1, ⟨0, 1, 2, 2, false, false, false, false, 0, emptyPiece⟩] := by
    unfold getPseudoLegalMovesF
    rw [gplmW_nonKing (by decide)]
    rw [show getPseudoLegalMovesNonKing stQB 0 1 =
      [m1, ⟨0, 1, 2, 2, false, false, false, false, 0, emptyPiece⟩] from by decide]
  rw [getLegalMovesF_eq_filter (by decide) (by decide) (by decide) hps]
  apply filterLegalF_cons_none
  apply isLegalMoveF_none
  rw [show stQB.currentPlayer = BLACK from rfl]
  rw [show trialStateV2 stQB m1 = T1q from rfl]
  exact (T1q_diverges fuel).2

theorem glm00q (fuel : Nat) : getLegalMovesF stQB 0 0 fuel = some ([], stQB) := by
  have hps : getPseudoLegalMovesF stQB 0 0 fuel = some [] := by
    unfold getPseudoLegalMovesF
    rw [gplmW_nonKing (by decide)]
    rw [show getPseudoLegalMovesNonKing stQB 0 0 = [] from by decide]
  rw [getLegalMovesF_eq_filter (by decide) (by decide) (by decide) hps]
  rfl

/-- v2's `evaluateBoard` never returns on the queen-removed initial state
either. -/
theorem evaluateBoardF_noQueen_none (fuel : Nat) :
    evaluateBoardF initNoQueen fuel = none := by
  apply evaluateBoardF_none
  intro ie
  rw [show V1.squaresList =
    ((0 : Int), (0 : Int)) :: ((0 : Int), (1 : Int)) :: V1.squaresList.drop 2 from by decide]
  have e0 : (bget initNoQueen.board (0 : Int) (0 : Int)).color = BLACK := by decide
  apply evalGoF_cons_step_none (p := ([], stQB)) (by decide)
  · rw [e0]
    exact glm00q fuel
  · intro sc
    have est : ({ stQB with currentPlayer := initNoQueen.currentPlayer } : GameState) =
        initNoQueen := by decide
    rw [show (([], stQB) : List Move × GameState).2 = stQB from rfl, est]
    have e1 : (bget initNoQueen.board (0 : Int) (1 : Int)).color = BLACK := by decide
    apply evalGoF_cons_none (by decide)
    rw [e1]
    exact glm01q_none fuel

end Chess.V2

namespace Chess

theorem inRange_iff {r c : Int} :
    inRange r c = true ↔ 0 ≤ r ∧ r < 8 ∧ 0 ≤ c ∧ c < 8 := by
  unfold inRange
  simp [Bool.and_eq_true, and_assoc]

theorem bidx_inj {r1 c1 r2 c2 : Int} (h1 : inRange r1 c1 = true)
    (h2 : inRange r2 c2 = true) :
    bidx r1 c1 = bidx r2 c2 ↔ r1 = r2 ∧ c1 = c2 := by
  rw [inRange_iff] at h1 h2
  unfold bidx
  omega

theorem list_set_getD_self {α : Type} (l : List α) (n : Nat) (d : α) :
    l.set n (l.getD n d) = l := by
  by_cases h : n < l.length
  · apply List.ext_getElem?
    intro i
    by_cases hi : n = i
    · subst hi
      rw [List.getElem?_set_self h, List.getD_eq_getElem?_getD,
        List.getElem?_eq_getElem h]
      rfl
    · rw [List.getElem?_set_ne hi]
  · exact List.set_eq_of_length_le (by omega)

theorem bset_bset_same {b : Board} {r c : Int} {p q : Piece} :
    bset (bset b r c p) r c q = bset b r c q := by
  unfold bset
  by_cases h : inRange r c = true
  · simp [h, List.set_set]
  · simp [h]

theorem bset_comm {b : Board} {r1 c1 r2 c2 : Int} {p q : Piece}
    (h : ¬(r1 = r2 ∧ c1 = c2)) :
    bset (bset b r1 c1 p) r2 c2 q = bset (bset b r2 c2 q) r1 c1 p := by
  unfold bset
  by_cases h1 : inRange r1 c1 = true
  · by_cases h2 : inRange r2 c2 = true
    · simp only [h1, h2, if_true]
      exact List.set_comm _ _ _ fun he => h ((bidx_inj h1 h2).1 he)
    · simp [h1, h2]
  · simp [h1]

theorem bset_bget_self {b : Board} {r c : Int} :
    bset b r c (bget b r c) = b := by
  unfold bset bget
  by_cases h : inRange r c = true
  · simp only [h, if_true]
    exact list_set_getD_self b (bidx r c) emptyPiece
  · simp [h]

theorem bget_bset_ne {b : Board} {r1 c1 r2 c2 : Int} {p : Piece}
    (h : ¬(r1 = r2 ∧ c1 = c2)) :
    bget (bset b r2 c2 p) r1 c1 = bget b r1 c1 := by
  unfold bget bset
  by_cases h1 : inRange r1 c1 = true
  · by_cases h2 : inRange r2 c2 = true
    · simp only [h1, h2, if_true]
      rw [List.getD_eq_getElem?_getD, List.getD_eq_getElem?_getD,
        List.getElem?_set_ne fun he => h ((bidx_inj h1 h2).1 he.symm)]
    · simp [h2]
  · simp [h1]

end Chess


namespace Chess

theorem bset_length {b : Board} {r c : Int} {p : Piece} :
    (bset b r c p).length = b.length := by
  unfold bset
  by_cases h : inRange r c = true <;> simp [h]

theorem bget_bset_same {b : Board} {r c : Int} {p : Piece}
    (hin : inRange r c = true) (hlen : b.length = 64) :
    bget (bset b r c p) r c = p := by
  unfold bget bset
  have hidx : bidx r c < 64 := by
    rw [inRange_iff] at hin
    unfold bidx
    omega
  simp only [hin, if_true]
  rw [List.getD_eq_getElem?_getD, List.getElem?_set_self (by simp [hlen, hidx])]
  rfl

theorem restore_core (B : Board) (fr fc tr tc : Int) (h : ¬(fr = tr ∧ fc = tc)) :
    bset (bset (bset B tr tc (bget B fr fc)) fr fc (bget B fr fc)) tr tc (bget B tr tc)
      = B := by
  rw [bset_comm (show ¬(fr = tr ∧ fc = tc) from h), bset_bset_same, bset_bget_self,
    bset_bget_self]

theorem restore_plain (B : Board) (fr fc tr tc : Int) (h : ¬(fr = tr ∧ fc = tc)) :
    bset (bset (bset (bset B tr tc (bget B fr fc)) fr fc emptyPiece)
        fr fc (bget B fr fc)) tr tc (bget B tr tc) = B := by
  rw [bset_bset_same]
  exact restore_core B fr fc tr tc h

theorem restore_ep (B : Board) (fr fc tr tc capR : Int)
    (hft : ¬(fr = tr ∧ fc = tc))
    (hcf : ¬(capR = fr ∧ tc = fc))
    (hct : capR ≠ tr) :
    bset
      (bset
        (bset (bset (bset (bset B tr tc (bget B fr fc)) fr fc emptyPiece) capR tc emptyPiece)
          fr fc (bget B fr fc))
        tr tc (bget B tr tc))
      capR tc (bget (bset (bset B tr tc (bget B fr fc)) fr fc emptyPiece) capR tc) = B := by
  rw [bget_bset_ne (show ¬(capR = fr ∧ tc = fc) from hcf)]
  rw [bget_bset_ne (show ¬(capR = tr ∧ tc = tc) from fun hh => hct hh.1)]
  rw [bset_comm (show ¬(tr = capR ∧ tc = tc) from fun hh => hct hh.1.symm)]
  rw [bset_comm (show ¬(capR = fr ∧ tc = fc) from hcf)]
  rw [bset_bset_same]
  rw [bset_bset_same]
  rw [bset_comm (show ¬(capR = tr ∧ tc = tc) from fun hh => hct hh.1)]
  rw [restore_core B fr fc tr tc hft]
  exact bset_bget_self

theorem restore_castle (B : Board) (fr fc tr tc rfC rtC : Int)
    (hlen : B.length = 64)
    (hft : ¬(fr = tr ∧ fc = tc))
    (hrt_f : rtC ≠ fc)
    (hrt_t : ¬(fr = tr ∧ rtC = tc))
    (hrf_f : rfC ≠ fc)
    (hrf_t : ¬(fr = tr ∧ rfC = tc))
    (hrf_rt : rfC ≠ rtC)
    (hin_rt : inRange fr rtC = true) :
    (let mp := bget B fr fc
    let t := bget B tr tc
    let b2 := bset (bset B tr tc mp) fr fc emptyPiece
    let savedRook := bget b2 fr rtC
    let b5 := bset (bset b2 fr rtC (bget b2 fr rfC)) fr rfC emptyPiece
    let r2 := bset (bset b5 fr fc mp) tr tc t
    bset (bset r2 fr rfC (bget r2 fr rtC)) fr rtC savedRook) = B := by
  simp only
  rw [show bget (bset (bset B tr tc (bget B fr fc)) fr fc emptyPiece) fr rtC
      = bget B fr rtC from by
    rw [bget_bset_ne (show ¬(fr = fr ∧ rtC = fc) from fun hh => hrt_f hh.2),
      bget_bset_ne (show ¬(fr = tr ∧ rtC = tc) from hrt_t)]]
  rw [show bget (bset (bset B tr tc (bget B fr fc)) fr fc emptyPiece) fr rfC
      = bget B fr rfC from by
    rw [bget_bset_ne (show ¬(fr = fr ∧ rfC = fc) from fun hh => hrf_f hh.2),
      bget_bset_ne (show ¬(fr = tr ∧ rfC = tc) from hrf_t)]]
  rw [show bget
      (bset
        (bset
          (bset (bset (bset (bset B tr tc (bget B fr fc)) fr fc emptyPiece) fr rtC (bget B fr rfC))
            fr rfC emptyPiece)
          fr fc (bget B fr fc))
        tr tc (bget B tr tc)) fr rtC = bget B fr rfC from by
    rw [bget_bset_ne (show ¬(fr = tr ∧ rtC = tc) from hrt_t),
      bget_bset_ne (show ¬(fr = fr ∧ rtC = fc) from fun hh => hrt_f hh.2),
      bget_bset_ne (show ¬(fr = fr ∧ rtC = rfC) from fun hh => hrf_rt hh.2.symm),
      bget_bset_same hin_rt (by simp [bset_length, hlen])]]
  rw [bset_comm (show ¬(fr = fr ∧ rfC = fc) from fun hh => hrf_f hh.2)]
  rw [bset_comm (show ¬(fr = tr ∧ rfC = tc) from hrf_t)]
  rw [bset_comm (show ¬(fr = fr ∧ rtC = fc) from fun hh => hrt_f hh.2)]
  rw [bset_comm (show ¬(fr = tr ∧ rtC = tc) from hrt_t)]
  rw [bset_bset_same]
  rw [restore_plain B fr fc tr tc hft]
  rw [bset_comm (show ¬(fr = fr ∧ rfC = rtC) from fun hh => hrf_rt hh.2)]
  rw [bset_bset_same, bset_bget_self, bset_bget_self]

end Chess


namespace Chess.V1

theorem isLegalMove_restore {st : GameState} {m : Move}
    (hlen : st.board.length = 64) (hok : MoveOK st m) :
    (isLegalMove st m).2 = st := by
  obtain ⟨hft, hep, hcast⟩ := hok
  cases hEP : m.isEnPassant with
  | true =>
    cases hCA : m.isCastling with
    | true =>
      exact absurd hEP (by simp [(hcast hCA).2.2.2.1])
    | false =>
      obtain ⟨hcr, htc, htr⟩ := hep hEP
      unfold isLegalMove trialBoard
      simp only [hEP, hCA, if_true, if_false, Bool.false_eq_true]
      rw [restore_ep st.board m.fromRow m.fromCol m.toRow m.toCol
        (epCaptureRow (bget st.board m.fromRow m.fromCol).color m.toRow)
        (fun hh => htr (hh.1.symm))
        (fun hh => htc hh.2)
        (by rw [hcr]; exact fun hh => htr hh.symm)]
  | false =>
    cases hCA : m.isCastling with
    | false =>
      unfold isLegalMove trialBoard
      simp only [hEP, hCA, if_false, Bool.false_eq_true]
      rw [restore_plain st.board m.fromRow m.fromCol m.toRow m.toCol hft]
    | true =>
      obtain ⟨hfc, htr, htc, _, hin⟩ := hcast hCA
      unfold isLegalMove trialBoard
      simp only [hEP, hCA, if_true, if_false, Bool.false_eq_true]
      rcases htc with h6 | h2
      · rw [h6, hfc, htr]
        rw [show V1.rookToCol 6 = 5 from by decide, show V1.rookFromCol 6 = 7 from by decide]
        rw [restore_castle st.board m.fromRow 4 m.fromRow 6 7 5 hlen
          (by simp) (by decide) (by simp) (by decide) (by simp) (by decide)
          (by rw [inRange_iff] at hin ⊢; omega)]
      · rw [h2, hfc, htr]
        rw [show V1.rookToCol 2 = 3 from by decide, show V1.rookFromCol 2 = 0 from by decide]
        rw [restore_castle st.board m.fromRow 4 m.fromRow 2 0 3 hlen
          (by simp) (by decide) (by simp) (by decide) (by simp) (by decide)
          (by rw [inRange_iff] at hin ⊢; omega)]

end Chess.V1


namespace Chess.V1

theorem slideFrom_facts {st : GameState} {r c dr dc : Int} {col : Color}
    (hdr : ¬(dr = 0 ∧ dc = 0)) :
    ∀ {dist : Int} {fuel : Nat} {m : Move}, 1 ≤ dist →
    m ∈ slideFrom st r c dr dc col dist fuel →
    m.fromRow = r ∧ m.fromCol = c ∧ m.isCastling = false ∧ m.isEnPassant = false ∧
    m.isPromotion = false ∧ inRange m.toRow m.toCol = true ∧
    ¬(m.fromRow = m.toRow ∧ m.fromCol = m.toCol) := by
  intro dist fuel
  induction fuel generalizing dist with
  | zero => intro m _ h; simp [slideFrom] at h
  | succ fuel ih =>
    intro m hdist h
    unfold slideFrom at h
    by_cases hin : inRange (r + dr * dist) (c + dc * dist) = true
    · simp only [hin, if_true] at h
      by_cases hty : (bget st.board (r + dr * dist) (c + dc * dist)).type = EMPTY
      · simp only [hty, if_true] at h
        rcases List.mem_cons.1 h with h1 | h2
        · subst h1
          refine ⟨rfl, rfl, rfl, rfl, rfl, hin, ?_⟩
          rintro ⟨h1, h2⟩
          have h1' : r = r + dr * dist := h1
          have h2' : c = c + dc * dist := h2
          have hd1 : dr * dist = 0 := by linarith
          have hd2 : dc * dist = 0 := by linarith
          rcases mul_eq_zero.1 hd1 with hz1 | hz1
          · rcases mul_eq_zero.1 hd2 with hz2 | hz2
            · exact hdr ⟨hz1, hz2⟩
            · omega
          · omega
        · exact ih (by omega) h2
      · simp only [hty, if_false] at h
        by_cases hco : (bget st.board (r + dr * dist) (c + dc * dist)).color ≠ col
        · rw [if_pos hco] at h
          rcases List.mem_singleton.1 h with h1
          subst h1
          refine ⟨rfl, rfl, rfl, rfl, rfl, hin, ?_⟩
          rintro ⟨h1, h2⟩
          have h1' : r = r + dr * dist := h1
          have h2' : c = c + dc * dist := h2
          have hd1 : dr * dist = 0 := by linarith
          have hd2 : dc * dist = 0 := by linarith
          rcases mul_eq_zero.1 hd1 with hz1 | hz1
          · rcases mul_eq_zero.1 hd2 with hz2 | hz2
            · exact hdr ⟨hz1, hz2⟩
            · omega
          · omega
        · rw [if_neg hco] at h
          simp at h
    · simp [hin] at h

theorem bget_type_ne_empty_inRange {b : Board} {r c : Int}
    (h : (bget b r c).type ≠ EMPTY) : inRange r c = true := by
  by_contra hn
  unfold bget at h
  rw [if_neg hn] at h
  exact h rfl

theorem stepTargets_facts {st : GameState} {r c : Int} {offs : List (Int × Int)}
    (hoffs : ∀ o ∈ offs, ¬(o.1 = 0 ∧ o.2 = 0)) {m : Move}
    (h : m ∈ stepTargets st r c offs) :
    m.fromRow = r ∧ m.fromCol = c ∧ m.isCastling = false ∧ m.isEnPassant = false ∧
    m.isPromotion = false ∧ inRange m.toRow m.toCol = true ∧
    ¬(m.fromRow = m.toRow ∧ m.fromCol = m.toCol) := by
  unfold stepTargets at h
  rw [List.mem_flatMap] at h
  obtain ⟨off, hoff, hm⟩ := h
  dsimp only at hm
  split at hm
  next h1 =>
    split at hm
    next h2 =>
      rcases List.mem_singleton.1 hm with rfl
      refine ⟨rfl, rfl, rfl, rfl, rfl, h1, ?_⟩
      rintro ⟨e1, e2⟩
      have e1' : r = r + off.1 := e1
      have e2' : c = c + off.2 := e2
      exact hoffs off hoff ⟨by omega, by omega⟩
    next h2 => simp at hm
  next h1 => simp at hm

theorem getSlidingMoves_facts {st : GameState} {r c : Int}
    {dirs : List (Int × Int)} (hd : ∀ d ∈ dirs, ¬(d.1 = 0 ∧ d.2 = 0)) {m : Move}
    (h : m ∈ getSlidingMoves st r c dirs) :
    m.fromRow = r ∧ m.fromCol = c ∧ m.isCastling = false ∧ m.isEnPassant = false ∧
    m.isPromotion = false ∧ inRange m.toRow m.toCol = true ∧
    ¬(m.fromRow = m.toRow ∧ m.fromCol = m.toCol) := by
  unfold getSlidingMoves at h
  rw [List.mem_flatMap] at h
  obtain ⟨d, hdm, hm⟩ := h
  exact slideFrom_facts (hd d hdm) (by norm_num) hm

theorem getPawnMoves_facts {st : GameState} {r c : Int} {m : Move}
    (h : m ∈ getPawnMoves st r c) :
    m.fromRow = r ∧ m.fromCol = c ∧ m.isCastling = false ∧
    inRange m.toRow m.toCol = true ∧
    ¬(m.fromRow = m.toRow ∧ m.fromCol = m.toCol) ∧
    (m.isEnPassant = true →
      epCaptureRow (bget st.board r c).color m.toRow = r ∧
      m.toCol ≠ c ∧ m.toRow ≠ r ∧ m.isPromotion = false ∧
      m.toRow = st.enPassantRow) ∧
    (m.isEnPassant = false → m.isPromotion = decide (m.toRow = 0 ∨ m.toRow = 7)) := by
  unfold getPawnMoves pawnCaptureAt at h
  revert h
  cases hcol : (bget st.board r c).color
  case NONE =>
    intro h
    simp only [show pawnDir NONE = (1 : Int) from rfl,
      show pawnStartRow NONE = (1 : Int) from rfl] at h
    simp only [List.mem_append] at h
    rcases h with (h | h) | h
    · split at h
      next hg =>
        rcases List.mem_cons.1 h with rfl | h
        · refine ⟨rfl, rfl, rfl, hg.1, ?_, fun he => Bool.noConfusion he, ?_⟩
          · rintro ⟨e1, e2⟩
            first
            | exact absurd (show r = r + (-1 : Int) from e1) (by omega)
            | exact absurd (show r = r + (1 : Int) from e1) (by omega)
          · intro hf
            first
            | rfl
            | exact (decide_or _ _).symm
        · split at h
          next hg2 =>
            rcases List.mem_singleton.1 h with rfl
            refine ⟨rfl, rfl, rfl, ?_, ?_, fun he => Bool.noConfusion he, ?_⟩
            · obtain ⟨hgc, hh⟩ := hg
              first
              | (have hr : r = (6 : Int) := hg2.1
                 have hgc2 : inRange (r + (-1 : Int)) c = true := hgc
                 show inRange (r + 2 * (-1 : Int)) c = true
                 rw [inRange_iff] at hgc2 ⊢
                 omega)
              | (have hr : r = (1 : Int) := hg2.1
                 have hgc2 : inRange (r + (1 : Int)) c = true := hgc
                 show inRange (r + 2 * (1 : Int)) c = true
                 rw [inRange_iff] at hgc2 ⊢
                 omega)
            · rintro ⟨e1, e2⟩
              first
              | exact absurd (show r = r + 2 * (-1 : Int) from e1) (by omega)
              | exact absurd (show r = r + 2 * (1 : Int) from e1) (by omega)
            · intro hh
              first
              | (have hr : r = (6 : Int) := hg2.1
                 subst hr
                 exact (by decide :
                   false = decide ((6 : Int) + 2 * (-1) = 0 ∨ (6 : Int) + 2 * (-1) = 7)))
              | (have hr : r = (1 : Int) := hg2.1
                 subst hr
                 exact (by decide :
                   false = decide ((1 : Int) + 2 * 1 = 0 ∨ (1 : Int) + 2 * 1 = 7)))
          next hg2 => simp at h
      next hg => simp at h
    · split at h
      next hg =>
        rw [List.mem_append] at h
        rcases h with h | h
        · split at h
          next hcap =>
            rcases List.mem_singleton.1 h with rfl
            refine ⟨rfl, rfl, rfl, hg, ?_, fun he => Bool.noConfusion he, ?_⟩
            · rintro ⟨e1, e2⟩
              exact absurd (show c = c + (-1 : Int) from e2) (by omega)
            · intro hf
              first
              | rfl
              | exact (decide_or _ _).symm
          next hcap => simp at h
        · split at h
          next hep =>
            rcases List.mem_singleton.1 h with rfl
            refine ⟨rfl, rfl, rfl, hg, ?_, ?_, fun he => Bool.noConfusion he⟩
            · rintro ⟨e1, e2⟩
              exact absurd (show c = c + (-1 : Int) from e2) (by omega)
            · intro hh
              refine ⟨?_, ?_, ?_, rfl, hep.2⟩
              · first
                | (show r + (-1 : Int) + 1 = r; ring)
                | (show r + (1 : Int) - 1 = r; ring)
              · intro e2
                exact absurd (show c + (-1 : Int) = c from e2) (by omega)
              · intro e1
                first
                | exact absurd (show r + (-1 : Int) = r from e1) (by omega)
                | exact absurd (show r + (1 : Int) = r from e1) (by omega)
          next hep => simp at h
      next hg => simp at h
    · split at h
      next hg =>
        rw [List.mem_append] at h
        rcases h with h | h
        · split at h
          next hcap =>
            rcases List.mem_singleton.1 h with rfl
            refine ⟨rfl, rfl, rfl, hg, ?_, fun he => Bool.noConfusion he, ?_⟩
            · rintro ⟨e1, e2⟩
              exact absurd (show c = c + (1 : Int) from e2) (by omega)
            · intro hf
              first
              | rfl
              | exact (decide_or _ _).symm
          next hcap => simp at h
        · split at h
          next hep =>
            rcases List.mem_singleton.1 h with rfl
            refine ⟨rfl, rfl, rfl, hg, ?_, ?_, fun he => Bool.noConfusion he⟩
            · rintro ⟨e1, e2⟩
              exact absurd (show c = c + (1 : Int) from e2) (by omega)
            · intro hh
              refine ⟨?_, ?_, ?_, rfl, hep.2⟩
              · first
                | (show r + (-1 : Int) + 1 = r; ring)
                | (show r + (1 : Int) - 1 = r; ring)
              · intro e2
                exact absurd (show c + (1 : Int) = c from e2) (by omega)
              · intro e1
                first
                | exact absurd (show r + (-1 : Int) = r from e1) (by omega)
                | exact absurd (show r + (1 : Int) = r from e1) (by omega)
          next hep => simp at h
      next hg => simp at h
  case WHITE =>
    intro h
    simp only [show pawnDir WHITE = (-1 : Int) from rfl,
      show pawnStartRow WHITE = (6 : Int) from rfl] at h
    simp only [List.mem_append] at h
    rcases h with (h | h) | h
    · split at h
      next hg =>
        rcases List.mem_cons.1 h with rfl | h
        · refine ⟨rfl, rfl, rfl, hg.1, ?_, fun he => Bool.noConfusion he, ?_⟩
          · rintro ⟨e1, e2⟩
            first
            | exact absurd (show r = r + (-1 : Int) from e1) (by omega)
            | exact absurd (show r = r + (1 : Int) from e1) (by omega)
          · intro hf
            first
            | rfl
            | exact (decide_or _ _).symm
        · split at h
          next hg2 =>
            rcases List.mem_singleton.1 h with rfl
            refine ⟨rfl, rfl, rfl, ?_, ?_, fun he => Bool.noConfusion he, ?_⟩
            · obtain ⟨hgc, hh⟩ := hg
              first
              | (have hr : r = (6 : Int) := hg2.1
                 have hgc2 : inRange (r + (-1 : Int)) c = true := hgc
                 show inRange (r + 2 * (-1 : Int)) c = true
                 rw [inRange_iff] at hgc2 ⊢
                 omega)
              | (have hr : r = (1 : Int) := hg2.1
                 have hgc2 : inRange (r + (1 : Int)) c = true := hgc
                 show inRange (r + 2 * (1 : Int)) c = true
                 rw [inRange_iff] at hgc2 ⊢
                 omega)
            · rintro ⟨e1, e2⟩
              first
              | exact absurd (show r = r + 2 * (-1 : Int) from e1) (by omega)
              | exact absurd (show r = r + 2 * (1 : Int) from e1) (by omega)
            · intro hh
              first
              | (have hr : r = (6 : Int) := hg2.1
                 subst hr
                 exact (by decide :
                   false = decide ((6 : Int) + 2 * (-1) = 0 ∨ (6 : Int) + 2 * (-1) = 7)))
              | (have hr : r = (1 : Int) := hg2.1
                 subst hr
                 exact (by decide :
                   false = decide ((1 : Int) + 2 * 1 = 0 ∨ (1 : Int) + 2 * 1 = 7)))
          next hg2 => simp at h
      next hg => simp at h
    · split at h
      next hg =>
        rw [List.mem_append] at h
        rcases h with h | h
        · split at h
          next hcap =>
            rcases List.mem_singleton.1 h with rfl
            refine ⟨rfl, rfl, rfl, hg, ?_, fun he => Bool.noConfusion he, ?_⟩
            · rintro ⟨e1, e2⟩
              exact absurd (show c = c + (-1 : Int) from e2) (by omega)
            · intro hf
              first
              | rfl
              | exact (decide_or _ _).symm
          next hcap => simp at h
        · split at h
          next hep =>
            rcases List.mem_singleton.1 h with rfl
            refine ⟨rfl, rfl, rfl, hg, ?_, ?_, fun he => Bool.noConfusion he⟩
            · rintro ⟨e1, e2⟩
              exact absurd (show c = c + (-1 : Int) from e2) (by omega)
            · intro hh
              refine ⟨?_, ?_, ?_, rfl, hep.2⟩
              · first
                | (show r + (-1 : Int) + 1 = r; ring)
                | (show r + (1 : Int) - 1 = r; ring)
              · intro e2
                exact absurd (show c + (-1 : Int) = c from e2) (by omega)
              · intro e1
                first
                | exact absurd (show r + (-1 : Int) = r from e1) (by omega)
                | exact absurd (show r + (1 : Int) = r from e1) (by omega)
          next hep => simp at h
      next hg => simp at h
    · split at h
      next hg =>
        rw [List.mem_append] at h
        rcases h with h | h
        · split at h
          next hcap =>
            rcases List.mem_singleton.1 h with rfl
            refine ⟨rfl, rfl, rfl, hg, ?_, fun he => Bool.noConfusion he, ?_⟩
            · rintro ⟨e1, e2⟩
              exact absurd (show c = c + (1 : Int) from e2) (by omega)
            · intro hf
              first
              | rfl
              | exact (decide_or _ _).symm
          next hcap => simp at h
        · split at h
          next hep =>
            rcases List.mem_singleton.1 h with rfl
            refine ⟨rfl, rfl, rfl, hg, ?_, ?_, fun he => Bool.noConfusion he⟩
            · rintro ⟨e1, e2⟩
              exact absurd (show c = c + (1 : Int) from e2) (by omega)
            · intro hh
              refine ⟨?_, ?_, ?_, rfl, hep.2⟩
              · first
                | (show r + (-1 : Int) + 1 = r; ring)
                | (show r + (1 : Int) - 1 = r; ring)
              · intro e2
                exact absurd (show c + (1 : Int) = c from e2) (by omega)
              · intro e1
                first
                | exact absurd (show r + (-1 : Int) = r from e1) (by omega)
                | exact absurd (show r + (1 : Int) = r from e1) (by omega)
          next hep => simp at h
      next hg => simp at h
  case BLACK =>
    intro h
    simp only [show pawnDir BLACK = (1 : Int) from rfl,
      show pawnStartRow BLACK = (1 : Int) from rfl] at h
    simp only [List.mem_append] at h
    rcases h with (h | h) | h
    · split at h
      next hg =>
        rcases List.mem_cons.1 h with rfl | h
        · refine ⟨rfl, rfl, rfl, hg.1, ?_, fun he => Bool.noConfusion he, ?_⟩
          · rintro ⟨e1, e2⟩
            first
            | exact absurd (show r = r + (-1 : Int) from e1) (by omega)
            | exact absurd (show r = r + (1 : Int) from e1) (by omega)
          · intro hf
            first
            | rfl
            | exact (decide_or _ _).symm
        · split at h
          next hg2 =>
            rcases List.mem_singleton.1 h with rfl
            refine ⟨rfl, rfl, rfl, ?_, ?_, fun he => Bool.noConfusion he, ?_⟩
            · obtain ⟨hgc, hh⟩ := hg
              first
              | (have hr : r = (6 : Int) := hg2.1
                 have hgc2 : inRange (r + (-1 : Int)) c = true := hgc
                 show inRange (r + 2 * (-1 : Int)) c = true
                 rw [inRange_iff] at hgc2 ⊢
                 omega)
              | (have hr : r = (1 : Int) := hg2.1
                 have hgc2 : inRange (r + (1 : Int)) c = true := hgc
                 show inRange (r + 2 * (1 : Int)) c = true
                 rw [inRange_iff] at hgc2 ⊢
                 omega)
            · rintro ⟨e1, e2⟩
              first
              | exact absurd (show r = r + 2 * (-1 : Int) from e1) (by omega)
              | exact absurd (show r = r + 2 * (1 : Int) from e1) (by omega)
            · intro hh
              first
              | (have hr : r = (6 : Int) := hg2.1
                 subst hr
                 exact (by decide :
                   false = decide ((6 : Int) + 2 * (-1) = 0 ∨ (6 : Int) + 2 * (-1) = 7)))
              | (have hr : r = (1 : Int) := hg2.1
                 subst hr
                 exact (by decide :
                   false = decide ((1 : Int) + 2 * 1 = 0 ∨ (1 : Int) + 2 * 1 = 7)))
          next hg2 => simp at h
      next hg => simp at h
    · split at h
      next hg =>
        rw [List.mem_append] at h
        rcases h with h | h
        · split at h
          next hcap =>
            rcases List.mem_singleton.1 h with rfl
            refine ⟨rfl, rfl, rfl, hg, ?_, fun he => Bool.noConfusion he, ?_⟩
            · rintro ⟨e1, e2⟩
              exact absurd (show c = c + (-1 : Int) from e2) (by omega)
            · intro hf
              first
              | rfl
              | exact (decide_or _ _).symm
          next hcap => simp at h
        · split at h
          next hep =>
            rcases List.mem_singleton.1 h with rfl
            refine ⟨rfl, rfl, rfl, hg, ?_, ?_, fun he => Bool.noConfusion he⟩
            · rintro ⟨e1, e2⟩
              exact absurd (show c = c + (-1 : Int) from e2) (by omega)
            · intro hh
              refine ⟨?_, ?_, ?_, rfl, hep.2⟩
              · first
                | (show r + (-1 : Int) + 1 = r; ring)
                | (show r + (1 : Int) - 1 = r; ring)
              · intro e2
                exact absurd (show c + (-1 : Int) = c from e2) (by omega)
              · intro e1
                first
                | exact absurd (show r + (-1 : Int) = r from e1) (by omega)
                | exact absurd (show r + (1 : Int) = r from e1) (by omega)
          next hep => simp at h
      next hg => simp at h
    · split at h
      next hg =>
        rw [List.mem_append] at h
        rcases h with h | h
        · split at h
          next hcap =>
            rcases List.mem_singleton.1 h with rfl
            refine ⟨rfl, rfl, rfl, hg, ?_, fun he => Bool.noConfusion he, ?_⟩
            · rintro ⟨e1, e2⟩
              exact absurd (show c = c + (1 : Int) from e2) (by omega)
            · intro hf
              first
              | rfl
              | exact (decide_or _ _).symm
          next hcap => simp at h
        · split at h
          next hep =>
            rcases List.mem_singleton.1 h with rfl
            refine ⟨rfl, rfl, rfl, hg, ?_, ?_, fun he => Bool.noConfusion he⟩
            · rintro ⟨e1, e2⟩
              exact absurd (show c = c + (1 : Int) from e2) (by omega)
            · intro hh
              refine ⟨?_, ?_, ?_, rfl, hep.2⟩
              · first
                | (show r + (-1 : Int) + 1 = r; ring)
                | (show r + (1 : Int) - 1 = r; ring)
              · intro e2
                exact absurd (show c + (1 : Int) = c from e2) (by omega)
              · intro e1
                first
                | exact absurd (show r + (-1 : Int) = r from e1) (by omega)
                | exact absurd (show r + (1 : Int) = r from e1) (by omega)
          next hep => simp at h
      next hg => simp at h

theorem getKingMoves_facts {st : GameState} {r c : Int} {m : Move}
    (h : m ∈ getKingMoves st r c) :
    (m.fromRow = r ∧ m.fromCol = c ∧ m.isCastling = false ∧ m.isEnPassant = false ∧
     m.isPromotion = false ∧ inRange m.toRow m.toCol = true ∧
     ¬(m.fromRow = m.toRow ∧ m.fromCol = m.toCol)) ∨
    (m.isCastling = true ∧ m.fromCol = 4 ∧ m.toRow = m.fromRow ∧
     (m.toCol = 6 ∨ m.toCol = 2) ∧ m.isEnPassant = false ∧ m.isPromotion = false ∧
     inRange m.fromRow m.fromCol = true ∧ inRange m.toRow m.toCol = true ∧
     ¬(m.fromRow = m.toRow ∧ m.fromCol = m.toCol)) := by
  unfold getKingMoves at h
  rw [List.mem_append] at h
  rcases h with h | h
  · exact Or.inl (stepTargets_facts (by decide) h)
  · right
    unfold kingCastles at h
    split at h
    next hgw =>
      rw [List.mem_append] at h
      rcases h with h | h
      · split at h
        next hc =>
          rcases List.mem_singleton.1 h with rfl
          exact ⟨rfl, rfl, rfl, Or.inl rfl, rfl, rfl, by decide, by decide, by decide⟩
        next hc => simp at h
      · split at h
        next hc =>
          rcases List.mem_singleton.1 h with rfl
          exact ⟨rfl, rfl, rfl, Or.inr rfl, rfl, rfl, by decide, by decide, by decide⟩
        next hc => simp at h
    next hgw =>
      split at h
      next hgb =>
        rw [List.mem_append] at h
        rcases h with h | h
        · split at h
          next hc =>
            rcases List.mem_singleton.1 h with rfl
            exact ⟨rfl, rfl, rfl, Or.inl rfl, rfl, rfl, by decide, by decide, by decide⟩
          next hc => simp at h
        · split at h
          next hc =>
            rcases List.mem_singleton.1 h with rfl
            exact ⟨rfl, rfl, rfl, Or.inr rfl, rfl, rfl, by decide, by decide, by decide⟩
          next hc => simp at h
      next hgb => simp at h

/-- Bundle the common facts into `PseudoFacts` for a non-pawn, non-castling
move. -/
theorem pseudoFacts_of_plain {st : GameState} {r c : Int} {m : Move}
    (hne : (bget st.board r c).type ≠ EMPTY) (hnp : (bget st.board r c).type ≠ PAWN)
    (f : m.fromRow = r ∧ m.fromCol = c ∧ m.isCastling = false ∧ m.isEnPassant = false ∧
         m.isPromotion = false ∧ inRange m.toRow m.toCol = true ∧
         ¬(m.fromRow = m.toRow ∧ m.fromCol = m.toCol)) :
    PseudoFacts st r c m := by
  obtain ⟨h1, h2, h3, h4, h5, h6, h7⟩ := f
  refine ⟨⟨h7, ?_, ?_⟩, fun hh => ⟨h1, h2⟩, ?_, ?_, h6, ?_, ?_⟩
  · intro he; rw [h4] at he; cases he
  · intro hc; rw [h3] at hc; cases hc
  · intro hc; rw [h3] at hc; cases hc
  · rw [h1, h2]; exact bget_type_ne_empty_inRange hne
  · intro he; rw [h4] at he; cases he
  · intro hp; exact absurd hp hnp

/-- Every move produced by `getPseudoLegalMoves` satisfies `PseudoFacts`. -/
theorem pseudo_facts {st : GameState} {r c : Int} {m : Move}
    (h : m ∈ getPseudoLegalMoves st r c) : PseudoFacts st r c m := by
  unfold getPseudoLegalMoves at h
  cases hty : (bget st.board r c).type
  case EMPTY => rw [hty] at h; simp at h
  case PAWN =>
    rw [hty] at h
    obtain ⟨h1, h2, h3, h4, h5, hep, hpr⟩ := getPawnMoves_facts h
    refine ⟨⟨h5, ?_, ?_⟩, fun hh => ⟨h1, h2⟩, ?_, ?_, h4, ?_, ?_⟩
    · intro he
      obtain ⟨hc1, hc2, hc3, hc4, hc5⟩ := hep he
      rw [h1, h2]
      exact ⟨hc1, fun hh => hc2 (h2 ▸ hh), fun hh => hc3 (h1 ▸ hh)⟩
    · intro hc; rw [h3] at hc; cases hc
    · intro hc; rw [h3] at hc; cases hc
    · rw [h1, h2]
      exact bget_type_ne_empty_inRange (by rw [hty]; intro hh; cases hh)
    · intro he
      obtain ⟨hc1, hc2, hc3, hc4, hc5⟩ := hep he
      exact ⟨hc4, hc5⟩
    · intro hp
      exact hpr
  case KNIGHT =>
    rw [hty] at h
    exact pseudoFacts_of_plain (by rw [hty]; intro hh; cases hh)
      (by rw [hty]; intro hh; cases hh) (stepTargets_facts (by decide) h)
  case BISHOP =>
    rw [hty] at h
    exact pseudoFacts_of_plain (by rw [hty]; intro hh; cases hh)
      (by rw [hty]; intro hh; cases hh) (getSlidingMoves_facts (by decide) h)
  case ROOK =>
    rw [hty] at h
    exact pseudoFacts_of_plain (by rw [hty]; intro hh; cases hh)
      (by rw [hty]; intro hh; cases hh) (getSlidingMoves_facts (by decide) h)
  case QUEEN =>
    rw [hty] at h
    exact pseudoFacts_of_plain (by rw [hty]; intro hh; cases hh)
      (by rw [hty]; intro hh; cases hh) (getSlidingMoves_facts (by decide) h)
  case KING =>
    rw [hty] at h
    rcases getKingMoves_facts h with hf | hf
    · exact pseudoFacts_of_plain (by rw [hty]; intro hh; cases hh)
        (by rw [hty]; intro hh; cases hh) hf
    · obtain ⟨c1, c2, c3, c4, c5, c6, c7, c8, c9⟩ := hf
      refine ⟨⟨c9, ?_, fun hh => ⟨c2, c3, c4, c5, ?_⟩⟩, ?_, fun hh => hty, c7, c8, ?_, ?_⟩
      · intro he; rw [c5] at he; cases he
      · rw [← c2]; exact c7
      · intro hc; rw [c1] at hc; cases hc
      · intro he; rw [c5] at he; cases he
      · intro hp; rw [hty] at hp; cases hp

theorem findMatch_some {tr tc : Int} :
    ∀ {l : List Move} {m : Move}, findMatch tr tc l = some m →
    m ∈ l ∧ m.toRow = tr ∧ m.toCol = tc := by
  intro l
  induction l with
  | nil => intro m h; cases h
  | cons a rest ih =>
    intro m h
    unfold findMatch at h
    split at h
    next hc =>
      cases h
      exact ⟨List.mem_cons_self a rest, hc.1, hc.2⟩
    next hc =>
      obtain ⟨h1, h2⟩ := ih h
      exact ⟨List.mem_cons_of_mem a h1, h2⟩

theorem findMatch_none {tr tc : Int} :
    ∀ {l : List Move}, findMatch tr tc l = none →
    ∀ m ∈ l, ¬(m.toRow = tr ∧ m.toCol = tc) := by
  intro l
  induction l with
  | nil => intro _ m hm; cases hm
  | cons a rest ih =>
    intro h m hm
    unfold findMatch at h
    split at h
    next hc => cases h
    next hc =>
      rcases List.mem_cons.1 hm with rfl | hm2
      · exact hc
      · exact ih h m hm2

theorem filterLegal_eq {st : GameState} (hlen : st.board.length = 64) :
    ∀ {ms : List Move}, (∀ m ∈ ms, MoveOK st m) →
    filterLegal st ms = (ms.filter (fun m => (isLegalMove st m).1), st) := by
  intro ms
  induction ms with
  | nil => intro _; rfl
  | cons a rest ih =>
    intro hok
    have hres : (isLegalMove st a).2 = st :=
      isLegalMove_restore hlen (hok a (List.mem_cons_self a rest))
    show (if (isLegalMove st a).1 then
        a :: (filterLegal (isLegalMove st a).2 rest).1
      else (filterLegal (isLegalMove st a).2 rest).1,
      (filterLegal (isLegalMove st a).2 rest).2) = _
    rw [hres, ih (fun m hm => hok m (List.mem_cons_of_mem a hm))]
    cases hb : (isLegalMove st a).1 <;> simp [List.filter_cons, hb]

theorem getLegalMoves_snd {st : GameState} {row col : Int}
    (hlen : st.board.length = 64) : (getLegalMoves st row col).2 = st := by
  unfold getLegalMoves
  by_cases h1 : inRange row col = true
  · rw [if_pos h1]
    by_cases h2 : (bget st.board row col).type = EMPTY ∨
        (bget st.board row col).color ≠ st.currentPlayer
    · rw [if_pos h2]
    · rw [if_neg h2]
      rw [filterLegal_eq hlen (fun m hm => (pseudo_facts hm).1)]
  · rw [if_neg h1]

theorem getLegalMoves_mem {st : GameState} {row col : Int} {m : Move}
    (hlen : st.board.length = 64) (h : m ∈ (getLegalMoves st row col).1) :
    m ∈ getPseudoLegalMoves st row col ∧ (isLegalMove st m).1 = true := by
  unfold getLegalMoves at h
  by_cases h1 : inRange row col = true
  · rw [if_pos h1] at h
    by_cases h2 : (bget st.board row col).type = EMPTY ∨
        (bget st.board row col).color ≠ st.currentPlayer
    · rw [if_pos h2] at h
      simp at h
    · rw [if_neg h2] at h
      rw [filterLegal_eq hlen (fun m hm => (pseudo_facts hm).1)] at h
      rw [show ((getPseudoLegalMoves st row col).filter
          (fun m => (isLegalMove st m).1), st).1 =
        (getPseudoLegalMoves st row col).filter (fun m => (isLegalMove st m).1)
        from rfl] at h
      rw [List.mem_filter] at h
      exact h
  · rw [if_neg h1] at h
    simp at h

theorem makeMove_elim (st : GameState) (fr fc tr tc : Int) (pp : PieceType) :
    (∃ m, findMatch tr tc (getLegalMoves st fr fc).1 = some m ∧
      makeMove st fr fc tr tc pp =
        (true, executeMoveInternal (getLegalMoves st fr fc).2 m pp)) ∨
    (findMatch tr tc (getLegalMoves st fr fc).1 = none ∧
      makeMove st fr fc tr tc pp = (false, (getLegalMoves st fr fc).2)) := by
  cases hf : findMatch tr tc (getLegalMoves st fr fc).1 with
  | some m =>
    refine Or.inl ⟨m, rfl, ?_⟩
    unfold makeMove
    rw [hf]
  | none =>
    refine Or.inr ⟨rfl, ?_⟩
    unfold makeMove
    rw [hf]

theorem execB1_length {st : GameState} {move : Move}
    (h : st.board.length = 64) : (execB1 st move).length = 64 := by
  unfold execB1
  split <;> simp [bset_length, h]

theorem execB2_length {st : GameState} {move : Move}
    (h : st.board.length = 64) : (execB2 st move).length = 64 := by
  unfold execB2
  split
  · split <;> simp [bset_length, execB1_length h]
  · exact execB1_length h

theorem execB6_length {st : GameState} {move : Move} {pp : PieceType}
    (h : st.board.length = 64) : (execB6 st move pp).length = 64 := by
  unfold execB6 execB5 execB4 execB3
  split <;> simp [bset_length, execB2_length h]

theorem exec_length {st : GameState} {move : Move} {pp : PieceType}
    (h : st.board.length = 64) :
    (executeMoveInternal st move pp).board.length = 64 :=
  execB6_length h

theorem exec_dest {st : GameState} {move : Move} {pp : PieceType}
    (hlen : st.board.length = 64)
    (hin : inRange move.toRow move.toCol = true)
    (hft : ¬(move.fromRow = move.toRow ∧ move.fromCol = move.toCol))
    (hpromo : move.isPromotion = true) :
    bget (executeMoveInternal st move pp).board move.toRow move.toCol =
      { bget st.board move.fromRow move.fromCol with hasMoved := true, type := pp } := by
  show bget (execB6 st move pp) move.toRow move.toCol = _
  unfold execB6
  rw [if_pos hpromo]
  rw [bget_bset_same hin (by unfold execB5 execB4 execB3; simp [bset_length, execB2_length hlen])]
  unfold execB5
  rw [bget_bset_same hin (by unfold execB4 execB3; simp [bset_length, execB2_length hlen])]
  unfold execB4
  rw [bget_bset_ne (show ¬(move.toRow = move.fromRow ∧ move.toCol = move.fromCol) from
    fun hh => hft ⟨hh.1.symm, hh.2.symm⟩)]
  unfold execB3
  rw [bget_bset_same hin (execB2_length hlen)]

theorem reachable_inv {st : GameState} (h : Reachable st) : ReachInv st := by
  induction h with
  | init => exact ⟨by decide, Or.inl rfl, by decide, by decide⟩
  | step ha hmk ih =>
    rename_i st0 fr fc tr tc st1
    obtain ⟨hlen, hpl, he0, he7⟩ := ih
    rcases makeMove_elim st0 fr fc tr tc QUEEN with ⟨m, hf, heq⟩ | ⟨hf, heq⟩
    · rw [heq] at hmk
      injection hmk with hm1 hm2
      subst hm2
      rw [getLegalMoves_snd hlen]
      obtain ⟨hmem, htr, htc⟩ := findMatch_some hf
      have hps := (getLegalMoves_mem hlen hmem).1
      obtain ⟨hok, hfrom, hck, hinf, hint, hepf, hprf⟩ := pseudo_facts hps
      refine ⟨exec_length hlen, ?_, ?_, ?_⟩
      · show (V1.oppColor st0.currentPlayer = WHITE ∨ V1.oppColor st0.currentPlayer = BLACK)
        rcases hpl with hh | hh <;> rw [hh] <;> simp [V1.oppColor]
      · show (if execDoublePush st0 m then (m.fromRow + m.toRow) / 2
          else st0.enPassantRow) ≠ 0
        split
        next hdp =>
          have hdp2 : (bget st0.board m.fromRow m.fromCol).type = PAWN ∧
              (m.fromRow - m.toRow).natAbs = 2 := hdp
          rw [inRange_iff] at hinf hint
          omega
        next hdp => exact he0
      · show (if execDoublePush st0 m then (m.fromRow + m.toRow) / 2
          else st0.enPassantRow) ≠ 7
        split
        next hdp =>
          have hdp2 : (bget st0.board m.fromRow m.fromCol).type = PAWN ∧
              (m.fromRow - m.toRow).natAbs = 2 := hdp
          rw [inRange_iff] at hinf hint
          omega
        next hdp => exact he7
    · rw [heq] at hmk
      injection hmk with hm1 hm2
      exact Bool.noConfusion hm1

end Chess.V1

namespace Chess.V2

set_option maxRecDepth 100000

/-- The attack oracle of v2 diverges already on the freshly initialised
state, for both colours, at every recursion budget. -/
theorem init_diverges :
    ∀ f, isInCheckF initState WHITE f = none ∧ isInCheckF initState BLACK f = none :=
  oracle_diverges initState (by decide) (by decide) (by decide) (by decide)
    (by decide) (by decide) (by decide) (by decide)

theorem isa74_none (fuel : Nat) :
    isSquareAttackedF initState 7 4 BLACK fuel = none :=
  (init_diverges fuel).1

theorem TInit_diverges :
    ∀ f, isInCheckF TInit WHITE f = none ∧ isInCheckF TInit BLACK f = none :=
  oracle_diverges TInit (by decide) (by decide) (by decide) (by decide)
    (by decide) (by decide) (by decide) (by decide)

theorem ilm_mP_none (fuel : Nat) : isLegalMoveF initState mP fuel = none := by
  apply isLegalMoveF_none
  rw [show initState.currentPlayer = WHITE from rfl]
  rw [show trialStateV2 initState mP = TInit from rfl]
  exact (TInit_diverges fuel).1

theorem glm60_none (fuel : Nat) : getLegalMovesF initState 6 0 fuel = none := by
  have hps : getPseudoLegalMovesF initState 6 0 fuel =
      some [mP, ⟨6, 0, 4, 0, false, false, false, false, 0, emptyPiece⟩] := by
    unfold getPseudoLegalMovesF
    rw [gplmW_nonKing (by decide)]
    rw [show getPseudoLegalMovesNonKing initState 6 0 =
      [mP, ⟨6, 0, 4, 0, false, false, false, false, 0, emptyPiece⟩] from by decide]
  rw [getLegalMovesF_eq_filter (by decide) (by decide) (by decide) hps]
  exact filterLegalF_cons_none (ilm_mP_none fuel)

theorem rootMovesF_skip {fuel : Nat} {st : GameState} {rc : Int × Int}
    {rest : List (Int × Int)}
    (h : ¬((bget st.board rc.1 rc.2).color = st.currentPlayer)) :
    rootMovesF fuel st (rc :: rest) = rootMovesF fuel st rest := by
  cases rest with
  | nil =>
    show (if (bget st.board rc.1 rc.2).color = st.currentPlayer then _ else
      rootMovesF fuel st []) = rootMovesF fuel st []
    rw [if_neg h]
  | cons b t =>
    show (if (bget st.board rc.1 rc.2).color = st.currentPlayer then _ else
      rootMovesF fuel st (b :: t)) = rootMovesF fuel st (b :: t)
    rw [if_neg h]

theorem rootMovesF_skip_many {fuel : Nat} {st : GameState} :
    ∀ {l rest : List (Int × Int)},
    (∀ rc ∈ l, ¬((bget st.board rc.1 rc.2).color = st.currentPlayer)) →
    rootMovesF fuel st (l ++ rest) = rootMovesF fuel st rest := by
  intro l
  induction l with
  | nil => intro rest _; rfl
  | cons a t ih =>
    intro rest h
    rw [List.cons_append, rootMovesF_skip (h a (List.mem_cons_self a t)),
      ih (fun rc hrc => h rc (List.mem_cons_of_mem a hrc))]

theorem rootMovesF_init_none (fuel : Nat) :
    rootMovesF fuel initState V1.squaresList = none := by
  rw [show V1.squaresList = (V1.squaresList.take 48) ++
    (((6 : Int), (0 : Int)) :: V1.squaresList.drop 49) from by decide]
  rw [rootMovesF_skip_many (by decide)]
  unfold rootMovesF
  rw [if_pos (by decide :
    (bget initState.board ((6 : Int), (0 : Int)).1 ((6 : Int), (0 : Int)).2).color
      = initState.currentPlayer)]
  rw [glm60_none fuel]

end Chess.V2

namespace Chess

set_option maxRecDepth 1000000
set_option maxHeartbeats 4000000

/-- Claim C1: the spec requires `getBestMove` to leave the entire `GameState`
unchanged on every exit path.  Refuted on v1: a depth-1 search from the
initial position leaves the a2-pawn's `hasMoved` flag set, because the
post-search restore writes `board[from] = board[to]` after the trial move
already marked the destination piece as moved. -/
theorem c1_getBestMove_mutates_state :
    (bget (V1.getBestMove V1.initState 1 [] []).2.board 6 0).hasMoved = true ∧
    (bget V1.initState.board 6 0).hasMoved = false := by decide

/-- Claim C2: `isLegalMove` restores the state exactly and its verdict is
false iff the trial application leaves the mover's king attacked.  The v1
half holds for every state of board length 64 and every pseudo-legal move;
the v2 `isLegalMove` never returns on the initial state's first pawn move
(its oracle query diverges at every recursion budget). -/
theorem c2_isLegalMove_claim :
    (∀ (st : V1.GameState) (r c : Int) (m : V1.Move),
      st.board.length = 64 → m ∈ V1.getPseudoLegalMoves st r c →
      (V1.isLegalMove st m).2 = st ∧
      ((V1.isLegalMove st m).1 = false ↔
        V1.isInCheck { st with board := V1.trialBoard st m } st.currentPlayer = true)) ∧
    (∀ fuel, V2.isLegalMoveF V2.initState V2.mP fuel = none) := by
  constructor
  · intro st r c m hlen hm
    refine ⟨V1.isLegalMove_restore hlen (V1.pseudo_facts hm).1, ?_⟩
    have hfst : (V1.isLegalMove st m).1 =
        !(V1.isInCheck { st with board := V1.trialBoard st m } st.currentPlayer) := rfl
    rw [hfst]
    cases V1.isInCheck { st with board := V1.trialBoard st m } st.currentPlayer <;> simp
  · exact V2.ilm_mP_none

theorem c2_witness :
    V1.initState.board.length = 64 ∧
    V1.mA3 ∈ V1.getPseudoLegalMoves V1.initState 6 0 ∧
    ((V1.isLegalMove V1.initState V1.mA3).2 = V1.initState ∧
     ((V1.isLegalMove V1.initState V1.mA3).1 = false ↔
       V1.isInCheck { V1.initState with
         board := V1.trialBoard V1.initState V1.mA3 } V1.initState.currentPlayer = true)) :=
  ⟨by decide, by decide,
    c2_isLegalMove_claim.1 V1.initState 6 0 V1.mA3 (by decide) (by decide)⟩

/-- Claim C3: the spec says a castling move never appears in the legal-move
list when (among other conditions) a square the king transits is attacked.
Refuted on v1: after 1. e4 d5 2. Bc4 b6 3. Bxd5 Ba6 4. Nf3 h6 the white
king-side castle is in the legal list for the king's square although the
transit square `(7,5)` is attacked by the black bishop on `(2,0)` — v1's
`getKingMoves` checks only the `Moved` flags and square emptiness. -/
theorem c3_castle_through_attack :
    ((V1.makeMove V1.initState 6 4 4 4 QUEEN).1 = true ∧
     (V1.makeMove V1.g1 1 3 3 3 QUEEN).1 = true ∧
     (V1.makeMove V1.g2 7 5 4 2 QUEEN).1 = true ∧
     (V1.makeMove V1.g3 1 1 2 1 QUEEN).1 = true ∧
     (V1.makeMove V1.g4 4 2 3 3 QUEEN).1 = true ∧
     (V1.makeMove V1.g5 0 2 2 0 QUEEN).1 = true ∧
     (V1.makeMove V1.g6 7 6 5 5 QUEEN).1 = true ∧
     (V1.makeMove V1.g7 1 7 2 7 QUEEN).1 = true) ∧
    V1.castleKW.isCastling = true ∧
    V1.castleKW ∈ (V1.getLegalMoves V1.g8 7 4).1 ∧
    V1.isSquareAttacked V1.g8 7 5 BLACK = true := by decide

/-- Claim C4: after a successful non-double-push `makeMove` the spec says
both en-passant components are cleared.  Refuted on v1: after 1. e4 Nf6 the
column is reset to -1 but the row keeps the stale value 5, because
`executeMoveInternal` resets only `enPassantCol`. -/
theorem c4_counterexample :
    (V1.makeMove V1.g1 0 6 2 5 QUEEN).1 = true ∧
    ¬((bget V1.g1.board 0 6).type = PAWN) ∧
    V1.st2.enPassantCol = -1 ∧ V1.st2.enPassantRow = 5 ∧
    ¬(V1.st2.enPassantRow = -1) := by decide

/-- Claim C4 (amended): after a successful `makeMove` from a reachable
state, a double pawn push sets the en-passant target to the origin column
and the midpoint row; any other move resets only the column to -1 and
leaves the row at its previous (stale) value. -/
theorem c4_enPassant_amended {st : V1.GameState} {fr fc tr tc : Int}
    {st' : V1.GameState} (hr : V1.Reachable st)
    (hmk : V1.makeMove st fr fc tr tc QUEEN = (true, st')) :
    (((bget st.board fr fc).type = PAWN ∧ (fr - tr).natAbs = 2) →
      st'.enPassantCol = fc ∧ st'.enPassantRow = (fr + tr) / 2) ∧
    (¬((bget st.board fr fc).type = PAWN ∧ (fr - tr).natAbs = 2) →
      st'.enPassantCol = -1 ∧ st'.enPassantRow = st.enPassantRow) := by
  obtain ⟨hlen, hpl, he0, he7⟩ := V1.reachable_inv hr
  rcases V1.makeMove_elim st fr fc tr tc QUEEN with ⟨m, hf, heq⟩ | ⟨hf, heq⟩
  · rw [heq] at hmk
    injection hmk with hm1 hm2
    subst hm2
    rw [V1.getLegalMoves_snd hlen]
    obtain ⟨hmem, htr, htc⟩ := V1.findMatch_some hf
    have hps := (V1.getLegalMoves_mem hlen hmem).1
    obtain ⟨hok, hfrom, hck, hinf, hint, hepf, hprf⟩ := V1.pseudo_facts hps
    by_cases hc : m.isCastling = true
    · have hking := hck hc
      obtain ⟨-, hctr, -⟩ := hok.2.2 hc
      have hndp : ¬ V1.execDoublePush st m := by
        intro hdp
        have hdp2 : (bget st.board m.fromRow m.fromCol).type = PAWN ∧
            (m.fromRow - m.toRow).natAbs = 2 := hdp
        rw [hctr] at hdp2
        omega
      constructor
      · rintro ⟨hp, -⟩
        rw [hking] at hp
        cases hp
      · intro hnc
        constructor
        · show (if V1.execDoublePush st m then m.fromCol else -1) = -1
          rw [if_neg hndp]
        · show (if V1.execDoublePush st m then (m.fromRow + m.toRow) / 2
            else st.enPassantRow) = st.enPassantRow
          rw [if_neg hndp]
    · have hcf : m.isCastling = false := by
        cases hcv : m.isCastling
        · rfl
        · exact absurd hcv hc
      obtain ⟨hfr, hfc⟩ := hfrom hcf
      subst hfr hfc htr htc
      constructor
      · intro hcond
        have hdp : V1.execDoublePush st m := hcond
        exact ⟨by show (if V1.execDoublePush st m then m.fromCol else -1) = m.fromCol
                  rw [if_pos hdp],
               by show (if V1.execDoublePush st m then (m.fromRow + m.toRow) / 2
                    else st.enPassantRow) = (m.fromRow + m.toRow) / 2
                  rw [if_pos hdp]⟩
      · intro hncond
        have hndp : ¬ V1.execDoublePush st m := fun hdp => hncond hdp
        exact ⟨by show (if V1.execDoublePush st m then m.fromCol else -1) = -1
                  rw [if_neg hndp],
               by show (if V1.execDoublePush st m then (m.fromRow + m.toRow) / 2
                    else st.enPassantRow) = st.enPassantRow
                  rw [if_neg hndp]⟩
  · rw [heq] at hmk
    injection hmk with hm1 hm2
    exact Bool.noConfusion hm1

theorem c4_witness :
    ((bget V1.initState.board 6 4).type = PAWN ∧ ((6 : Int) - 4).natAbs = 2) ∧
    (V1.g1.enPassantCol = 4 ∧ V1.g1.enPassantRow = ((6 : Int) + 4) / 2) :=
  ⟨by decide, (c4_enPassant_amended V1.Reachable.init
    (show V1.makeMove V1.initState 6 4 4 4 QUEEN = (true, V1.g1) from by decide)).1
    (by decide)⟩

/-- Claim C5: `makeMove` returns true iff the legal-move list from the
origin square contains a matching destination, and returns the state
unchanged on failure.  The v1 half holds for every state of board length
64; v2's `makeMove` never returns on the initial state (its
`getLegalMoves(6,0)` diverges at every recursion budget). -/
theorem c5_makeMove_claim :
    (∀ (st : V1.GameState) (fr fc tr tc : Int), st.board.length = 64 →
      ((V1.makeMove st fr fc tr tc QUEEN).1 = true ↔
        ∃ m ∈ (V1.getLegalMoves st fr fc).1, m.toRow = tr ∧ m.toCol = tc) ∧
      ((V1.makeMove st fr fc tr tc QUEEN).1 = false →
        (V1.makeMove st fr fc tr tc QUEEN).2 = st)) ∧
    (∀ fuel, V2.getLegalMovesF V2.initState 6 0 fuel = none) := by
  constructor
  · intro st fr fc tr tc hlen
    rcases V1.makeMove_elim st fr fc tr tc QUEEN with ⟨m, hf, heq⟩ | ⟨hf, heq⟩
    · rw [heq]
      obtain ⟨hmem, htr, htc⟩ := V1.findMatch_some hf
      constructor
      · exact ⟨fun _ => ⟨m, hmem, htr, htc⟩, fun _ => rfl⟩
      · intro hfalse
        exact Bool.noConfusion hfalse
    · rw [heq]
      constructor
      · constructor
        · intro hfalse
          exact Bool.noConfusion hfalse
        · rintro ⟨m, hmem, htr, htc⟩
          exact absurd ⟨htr, htc⟩ (V1.findMatch_none hf m hmem)
      · intro _
        exact V1.getLegalMoves_snd hlen
  · exact V2.glm60_none

theorem c5_witness :
    V1.initState.board.length = 64 ∧
    (((V1.makeMove V1.initState 6 0 5 0 QUEEN).1 = true ↔
       ∃ m ∈ (V1.getLegalMoves V1.initState 6 0).1, m.toRow = 5 ∧ m.toCol = 0) ∧
     ((V1.makeMove V1.initState 6 0 5 0 QUEEN).1 = false →
       (V1.makeMove V1.initState 6 0 5 0 QUEEN).2 = V1.initState)) :=
  ⟨by decide, c5_makeMove_claim.1 V1.initState 6 0 5 0 (by decide)⟩

/-- Claim C6: the initial position has exactly 20 legal moves over all 64
squares — 16 pawn moves and 4 knight moves — and none of them is a castling
move.  Confirmed on v1 by computation. -/
theorem c6_initial_twenty_moves :
    (V1.collectAllMoves V1.initState).1.length = 20 ∧
    (V1.collectAllMoves V1.initState).1.countP
      (fun m => (bget V1.initState.board m.fromRow m.fromCol).type == PAWN) = 16 ∧
    (V1.collectAllMoves V1.initState).1.countP
      (fun m => (bget V1.initState.board m.fromRow m.fromCol).type == KNIGHT) = 4 ∧
    (V1.collectAllMoves V1.initState).1.all (fun m => !m.isCastling) = true := by decide

/-- Claim C7: the spec says `getBestMove` returns the sentinel iff no legal
move exists, else a move whose destination is in the legal list of its
origin.  Refuted on v2: the fuelled model of its legal-move collection loop
returns no result at any recursion budget on the initial state (the first
own-piece square's `getLegalMoves` call never terminates), so v2's
`getBestMove` returns neither the sentinel nor a legal move. -/
theorem c7_v2_getBestMove_never_returns :
    ∀ fuel, V2.rootMovesF fuel V2.initState V1.squaresList = none :=
  V2.rootMovesF_init_none

/-- Claim C8: `evaluateBoard` yields 0 on the initial position, and removing
the black queen raises the value by at least 900.  The v1 half holds by
computation (the difference is exactly 900); v2's `evaluateBoard` never
returns on either input (its mobility term queries the diverging oracle), at
every recursion budget. -/
theorem c8_evaluateBoard_claim :
    V1.evaluateBoard V1.initState = 0 ∧
    V1.evaluateBoard V1.initStateNoQueen - V1.evaluateBoard V1.initState ≥ 900 ∧
    (∀ fuel, V2.evaluateBoardF V2.initState fuel = none) ∧
    (∀ fuel, V2.evaluateBoardF V2.initNoQueen fuel = none) :=
  ⟨by decide, by decide, V2.evaluateBoardF_init_none, V2.evaluateBoardF_noQueen_none⟩

/-- Claim C9: the exported boundary always passes QUEEN, so every promotion
committed through `makeMove` from a reachable state places a queen of the
moving colour on the destination square. -/
theorem c9_boundary_promotion_queen {st : V1.GameState} {fr fc tr tc : Int}
    {st' : V1.GameState} (hr : V1.Reachable st)
    (hmk : V1.makeMove st fr fc tr tc QUEEN = (true, st'))
    (hp : (bget st.board fr fc).type = PAWN) (htr7 : tr = 0 ∨ tr = 7) :
    (bget st'.board tr tc).type = QUEEN ∧
    (bget st'.board tr tc).color = (bget st.board fr fc).color := by
  obtain ⟨hlen, hpl, he0, he7⟩ := V1.reachable_inv hr
  rcases V1.makeMove_elim st fr fc tr tc QUEEN with ⟨m, hf, heq⟩ | ⟨hf, heq⟩
  · rw [heq] at hmk
    injection hmk with hm1 hm2
    subst hm2
    rw [V1.getLegalMoves_snd hlen]
    obtain ⟨hmem, htr, htc⟩ := V1.findMatch_some hf
    have hps := (V1.getLegalMoves_mem hlen hmem).1
    obtain ⟨hok, hfrom, hck, hinf, hint, hepf, hprf⟩ := V1.pseudo_facts hps
    have hcf : m.isCastling = false := by
      cases hcv : m.isCastling
      · rfl
      · rw [hck hcv] at hp
        cases hp
    obtain ⟨hfr, hfc⟩ := hfrom hcf
    have hef : m.isEnPassant = false := by
      cases hev : m.isEnPassant
      · rfl
      · obtain ⟨-, hrow⟩ := hepf hev
        rw [htr] at hrow
        rcases htr7 with h0 | h7
        · rw [h0] at hrow
          exact absurd hrow.symm he0
        · rw [h7] at hrow
          exact absurd hrow.symm he7
    have hpr : m.isPromotion = true := by
      rw [hprf hp hef, htr]
      exact decide_eq_true htr7
    have hd := @V1.exec_dest st m QUEEN hlen hint hok.1 hpr
    rw [← htr, ← htc, hd, hfr, hfc]
    exact ⟨rfl, rfl⟩
  · rw [heq] at hmk
    injection hmk with hm1 hm2
    exact Bool.noConfusion hm1

theorem c9_witness :
    (bget V1.p8.board 1 7).type = PAWN ∧ ((0 : Int) = 0 ∨ (0 : Int) = 7) ∧
    ((bget V1.p9.board 0 7).type = QUEEN ∧
     (bget V1.p9.board 0 7).color = (bget V1.p8.board 1 7).color) := by
  have r1 : V1.Reachable V1.p1 := V1.Reachable.step V1.Reachable.init
    (show V1.makeMove V1.initState 6 7 4 7 QUEEN = (true, V1.p1) from by decide)
  have r2 : V1.Reachable V1.p2 := V1.Reachable.step r1
    (show V1.makeMove V1.p1 1 6 3 6 QUEEN = (true, V1.p2) from by decide)
  have r3 : V1.Reachable V1.p3 := V1.Reachable.step r2
    (show V1.makeMove V1.p2 4 7 3 6 QUEEN = (true, V1.p3) from by decide)
  have r4 : V1.Reachable V1.p4 := V1.Reachable.step r3
    (show V1.makeMove V1.p3 1 7 2 7 QUEEN = (true, V1.p4) from by decide)
  have r5 : V1.Reachable V1.p5 := V1.Reachable.step r4
    (show V1.makeMove V1.p4 3 6 2 7 QUEEN = (true, V1.p5) from by decide)
  have r6 : V1.Reachable V1.p6 := V1.Reachable.step r5
    (show V1.makeMove V1.p5 0 6 2 5 QUEEN = (true, V1.p6) from by decide)
  have r7 : V1.Reachable V1.p7 := V1.Reachable.step r6
    (show V1.makeMove V1.p6 2 7 1 7 QUEEN = (true, V1.p7) from by decide)
  have r8 : V1.Reachable V1.p8 := V1.Reachable.step r7
    (show V1.makeMove V1.p7 0 7 0 6 QUEEN = (true, V1.p8) from by decide)
  exact ⟨by decide, Or.inl rfl,
    c9_boundary_promotion_queen r8
      (show V1.makeMove V1.p8 1 7 0 7 QUEEN = (true, V1.p9) from by decide)
      (by decide) (Or.inl rfl)⟩

/-- Claim C10: the spec says `isSquareAttacked` and `isInCheck` are pure
boolean queries.  Refuted on v2: on the freshly initialised state neither
returns at any recursion budget (the oracle's call cycle through
`getKingMoves` never terminates), so they do not return a boolean at all. -/
theorem c10_attack_oracle_diverges :
    ∀ fuel, V2.isSquareAttackedF V2.initState 7 4 BLACK fuel = none ∧
      V2.isInCheckF V2.initState WHITE fuel = none ∧
      V2.isInCheckF V2.initState BLACK fuel = none :=
  fun fuel => ⟨V2.isa74_none fuel, (V2.init_diverges fuel).1, (V2.init_diverges fuel).2⟩

end Chess
